import Mathlib

/-!
Shallow embedding of the LLM-council orchestration core
(`backend/council.py` and `backend/openrouter.py`).

Conventions:
- Python dict-shaped model responses become the `Resp` record; a possibly
  absent response is `Option Resp` (Python `None`).
- Python truthiness of `response.get('content')` is captured by `contentOf`:
  the content must be present and a non-empty string.
- Network effects are abstracted as oracles (`env` functions) giving the
  response each dispatch would observe; all orchestration logic is translated
  verbatim from the source.
- All recursion is structural or fueled with a provably sufficient fuel, so
  every definition evaluates by `decide` / `rfl`.
-/

namespace Council

/-- A model response dict as produced by `openrouter.query_model`:
`content`, `error`, `error_type` keys, each possibly absent. -/
structure Resp where
  content : Option String
  error : Option String
  errorType : Option String
deriving Repr, DecidableEq

/-- Python truthiness of `response is not None and response.get('content')`:
the response exists and carries a non-empty content string. -/
def contentOf : Option Resp → Option String
  | none => none
  | some r =>
    match r.content with
    | none => none
    | some s => if s = "" then none else some s

/-! ### Ranking parser (`parse_ranking_from_text`) -/

/-- The section marker `"FINAL RANKING:"` as a character list. -/
def FINAL_MARKER : List Char := ("FINAL RANKING:").data

/-- The literal `"Response "` that opens every label token. -/
def RESP_TOKEN : List Char := ("Response ").data

/-- ASCII decimal digit (regex `\d` on the ASCII inputs in scope). -/
def isDigitCh (c : Char) : Bool := ('0' ≤ c) && (c ≤ '9')

/-- ASCII whitespace (regex `\s` on the ASCII inputs in scope). -/
def isSpaceCh (c : Char) : Bool :=
  (c = ' ') || (c = '\t') || (c = '\n') || (c = '\r') || (c = '\x0b') || (c = '\x0c')

/-- Uppercase ASCII letter (regex `[A-Z]`). -/
def isUpperCh (c : Char) : Bool := ('A' ≤ c) && (c ≤ 'Z')

/-- Index of the first occurrence of `marker` in `cs`, if any
(the scan `str.find` / `in` performs). -/
def findSub (marker : List Char) : List Char → Option Nat
  | [] => if marker = [] then some 0 else none
  | c :: rest =>
    if (c :: rest).take marker.length = marker then some 0
    else (findSub marker rest).map (· + 1)

/-- Fueled worker for `str.split(marker)`. -/
def splitSubFuel (marker : List Char) : Nat → List Char → List (List Char)
  | 0, cs => [cs]
  | fuel + 1, cs =>
    match findSub marker cs with
    | none => [cs]
    | some i => cs.take i :: splitSubFuel marker fuel (cs.drop (i + marker.length))

/-- `ranking_text.split("FINAL RANKING:")`: all segments, left to right,
separated by non-overlapping occurrences of the marker. -/
def splitMarker (cs : List Char) : List (List Char) :=
  splitSubFuel FINAL_MARKER cs.length cs

/-- A match of the regex `Response [A-Z]` anchored at the start of `cs`:
returns the matched token. Every match has length 10. -/
def bareAt (cs : List Char) : Option String :=
  if cs.take 9 = RESP_TOKEN then
    match cs.drop 9 with
    | u :: _ => if isUpperCh u then some (String.mk (RESP_TOKEN ++ [u])) else none
    | [] => none
  else none

/-- Fueled worker of `re.findall(r'Response [A-Z]', ...)`:
leftmost, non-overlapping matches, in appearance order. -/
def findallBareFuel : Nat → List Char → List String
  | 0, _ => []
  | _, [] => []
  | fuel + 1, c :: rest =>
    match bareAt (c :: rest) with
    | some tok => tok :: findallBareFuel fuel ((c :: rest).drop 10)
    | none => findallBareFuel fuel rest

/-- `re.findall(r'Response [A-Z]', cs)`. -/
def findallBare (cs : List Char) : List String :=
  findallBareFuel cs.length cs

/-- A match of the regex `\d+\.\s*Response [A-Z]` anchored at the start of
`cs`: the greedy `\d+` and `\s*` take maximal runs (no alternative can
backtrack into a successful match here). Returns the contained label token —
the `re.search(r'Response [A-Z]', m).group()` the source extracts — together
with the total length of the match. -/
def numberedAt (cs : List Char) : Option (String × Nat) :=
  let ds := cs.takeWhile isDigitCh
  if ds.length = 0 then none
  else
    match cs.drop ds.length with
    | '.' :: rest2 =>
      let ws := rest2.takeWhile isSpaceCh
      match bareAt (rest2.drop ws.length) with
      | some tok => some (tok, ds.length + 1 + ws.length + 10)
      | none => none
    | _ => none

/-- Fueled worker of `re.findall(r'\d+\.\s*Response [A-Z]', ...)` composed
with the per-match label extraction. -/
def findallNumberedFuel : Nat → List Char → List String
  | 0, _ => []
  | _, [] => []
  | fuel + 1, c :: rest =>
    match numberedAt (c :: rest) with
    | some (tok, n) => tok :: findallNumberedFuel fuel ((c :: rest).drop n)
    | none => findallNumberedFuel fuel rest

/-- Label tokens of all `\d+\.\s*Response [A-Z]` matches, in appearance
order. -/
def findallNumbered (cs : List Char) : List String :=
  findallNumberedFuel cs.length cs

/-- Tiers A and B of the parser applied to a post-marker section: numbered
items first; if none, all bare label tokens. -/
def tierAB (sec : List Char) : List String :=
  let numbered := findallNumbered sec
  if numbered = [] then findallBare sec else numbered

/-- `parse_ranking_from_text` translated from the source: split on the
marker, run tiers A/B on `parts[1]`, otherwise fall back to bare label
tokens over the whole text. -/
def parse_ranking_from_text (t : String) : List String :=
  let cs := t.data
  if (findSub FINAL_MARKER cs).isSome then
    let parts := splitMarker cs
    if 2 ≤ parts.length then
      tierAB ((parts[1]?).getD [])
    else
      findallBare cs
  else
    findallBare cs

/-- All text after the first occurrence of the marker (empty when the marker
is absent). Used to state what the claim's words describe. -/
def afterFirstMarker (cs : List Char) : List Char :=
  match findSub FINAL_MARKER cs with
  | some i => cs.drop (i + FINAL_MARKER.length)
  | none => []

/-- The text strictly between the first and second occurrences of the marker
(the whole remainder when the marker occurs only once). -/
def betweenFirstTwo (cs : List Char) : List Char :=
  let r := afterFirstMarker cs
  match findSub FINAL_MARKER r with
  | some j => r.take j
  | none => r

/-- Modelled from the claim's words (for comparison with the source
definition): a parser whose tiers A and B consider all text following the
first marker occurrence. -/
def parseRankingClaimed (t : String) : List String :=
  let cs := t.data
  if (findSub FINAL_MARKER cs).isSome then tierAB (afterFirstMarker cs)
  else findallBare cs

/-! ### Constants (`council.py` module level) -/

/-- Minimum number of successful responses required. -/
def MIN_RESPONSES : Nat := 2

/-- Max retry rounds before giving up. -/
def MAX_RETRY_ROUNDS : Nat := 2

/-- Fixed-priority pool of backup models. -/
def BACKUP_MODELS : List String :=
  ["google/gemma-3-12b-it:free",
   "google/gemma-3-4b-it:free",
   "mistralai/mistral-small-3.1-24b-instruct:free",
   "microsoft/phi-4-reasoning-plus:free",
   "nvidia/llama-3.1-nemotron-70b-instruct:free",
   "deepseek/deepseek-r1-0528:free",
   "qwen/qwen3-235b-a22b-thinking-2507"]

/-! ### Stage 1 (`stage1_collect_responses`)

The network is abstracted as an oracle `env : Nat → String → Option Resp`:
`env slot m` is the response model `m` would give in fan-out call `slot`
(slot 0 = initial fan-out, slot 1 = the round-1 retry of failed models,
slot 2 = the round-1 backup fan-out, slot 3 = the round-2 backup fan-out).
-/

/-- The mutable locals of `stage1_collect_responses`:
`results` (success entries as model–response pairs), `succeeded` (the
`succeeded_models` set, in insertion order), `failedModels` and
`failedDetails` (model, error, error_type). -/
structure S1State where
  results : List (String × String)
  succeeded : List String
  failedModels : List String
  failedDetails : List (String × String × String)
deriving Repr, DecidableEq

/-- `query_models_parallel`: one response per target model, in target
order. -/
def fanout (env : String → Option Resp) (targets : List String) :
    List (String × Option Resp) :=
  targets.map fun m => (m, env m)

/-- The error detail captured for a failed model in the initial loop:
`failed_details[model]` is the response's error and error_type when the
response carries a truthy error, else the no-response default. -/
def failDetailOf : Option Resp → String × String
  | none => ("No response received", "no_response")
  | some r =>
    match r.error with
    | none => ("No response received", "no_response")
    | some e =>
      if e = "" then ("No response received", "no_response")
      else (e, r.errorType.getD "unknown")

/-- One iteration of the initial partition loop over the fan-out results. -/
def initStep (st : S1State) (mr : String × Option Resp) : S1State :=
  match contentOf mr.2 with
  | some c =>
    { st with results := st.results ++ [(mr.1, c)],
              succeeded := st.succeeded ++ [mr.1] }
  | none =>
    let d := failDetailOf mr.2
    { st with failedModels := st.failedModels ++ [mr.1],
              failedDetails := st.failedDetails ++ [(mr.1, d.1, d.2)] }

/-- The state after the initial fan-out and partition. -/
def stage1Init (env : Nat → String → Option Resp) (active : List String) :
    S1State :=
  (fanout (env 0) active).foldl initStep ⟨[], [], [], []⟩

/-- One iteration of a retry/backup merge loop: a new success is appended
only when the model is not already in `succeeded_models`; failures are
ignored. -/
def mergeStep (st : S1State) (mr : String × Option Resp) : S1State :=
  match contentOf mr.2 with
  | some c =>
    if mr.1 ∈ st.succeeded then st
    else { st with results := st.results ++ [(mr.1, c)],
                   succeeded := st.succeeded ++ [mr.1] }
  | none => st

/-- The round-1 retry block: when any models failed, re-dispatch the first
`need + 1` failed models, merge new successes, and drop newly succeeded
models from the failed list. Also returns the dispatched target list
(empty when the block did not dispatch). -/
def retryBlock (env1 : String → Option Resp) (st : S1State) :
    S1State × List (List String) :=
  if st.failedModels = [] then (st, [])
  else
    let need := MIN_RESPONSES - st.results.length
    let targets := st.failedModels.take (need + 1)
    let st1 := (fanout env1 targets).foldl mergeStep st
    let st2 := { st1 with
      failedModels := st1.failedModels.filter fun m => decide (m ∉ st1.succeeded) }
    (st2, [targets])

/-- The backup block: candidates are backup-pool models not in
`succeeded ∪ active`; `none` models the `break` when no candidate is left,
otherwise the first `need + 2` candidates are dispatched and merged. -/
def backupBlock (env1 : String → Option Resp) (active : List String)
    (st : S1State) : Option (S1State × List String) :=
  let allTried := st.succeeded ++ active
  let candidates := BACKUP_MODELS.filter fun m => decide (m ∉ allTried)
  if candidates = [] then none
  else
    let need := MIN_RESPONSES - st.results.length
    let targets := candidates.take (need + 2)
    some ((fanout env1 targets).foldl mergeStep st, targets)

/-- The `while` retry loop. `retryRound` is the Python `retry_round`
counter; the log accumulates every dispatched target list in order. The
fuel is `MAX_RETRY_ROUNDS`, which the loop condition makes sufficient. -/
def stage1Loop (env : Nat → String → Option Resp) (active : List String) :
    Nat → Nat → S1State → List (List String) → S1State × List (List String)
  | 0, _, st, log => (st, log)
  | fuel + 1, retryRound, st, log =>
    if st.results.length < MIN_RESPONSES ∧ retryRound < MAX_RETRY_ROUNDS then
      let r := retryRound + 1
      let p1 :=
        if r = 1 then
          let rb := retryBlock (env 1) st
          (rb.1, log ++ rb.2)
        else (st, log)
      if p1.1.results.length < MIN_RESPONSES then
        match backupBlock (env (r + 1)) active p1.1 with
        | none => (p1.1, p1.2)
        | some (st2, targets) =>
          stage1Loop env active fuel r st2 (p1.2 ++ [targets])
      else
        stage1Loop env active fuel r p1.1 p1.2
    else (st, log)

/-- Stage 1 run: final internal state plus the log of every dispatched
target list (the initial fan-out first). -/
def stage1Run (env : Nat → String → Option Resp) (active : List String) :
    S1State × List (List String) :=
  stage1Loop env active MAX_RETRY_ROUNDS 0 (stage1Init env active) [active]

/-- One entry of the returned Stage-1 list: a success dict
(`status='success'`) or a failed dict carrying error details. -/
inductive S1Entry where
  | success (model resp : String)
  | failed (model error errorType : String)
deriving Repr, DecidableEq

/-- The model id of a Stage-1 entry. -/
def S1Entry.modelId : S1Entry → String
  | .success m _ => m
  | .failed m _ _ => m

/-- `failed_details.get(model, {})` followed by the per-key defaults. -/
def lookupDetail : List (String × String × String) → String → String × String
  | [], _ => ("Unknown error", "unknown")
  | (k, e, t) :: rest, m => if k = m then (e, t) else lookupDetail rest m

/-- Assemble the returned list from the final state: success entries first,
then one failed entry per remaining failed model. -/
def stage1FromState (st : S1State) : List S1Entry :=
  st.results.map (fun p => S1Entry.success p.1 p.2) ++
    st.failedModels.map fun m =>
      let d := lookupDetail st.failedDetails m
      S1Entry.failed m d.1 d.2

/-- `stage1_collect_responses` translated from the source. -/
def stage1_collect_responses (env : Nat → String → Option Resp)
    (active : List String) : List S1Entry :=
  stage1FromState (stage1Run env active).1

/-! ### Stage 2 (`stage2_collect_rankings`) -/

/-- The Stage-2 success filter
`r.get('status') != 'failed' and r.get('response')`. -/
def isSuccessEntry : S1Entry → Bool
  | .success _ r => decide (r ≠ "")
  | .failed _ _ _ => false

/-- `"Response "` + `chr(65 + i)`: the label of the i-th success. -/
def labelOfIdx (i : Nat) : String :=
  String.mk (RESP_TOKEN ++ [Char.ofNat (65 + i)])

/-- One Stage-2 ranking record: model, raw ranking text and the stored
parsed ranking. -/
structure Record where
  model : String
  ranking : String
  parsed_ranking : List String
deriving Repr, DecidableEq

/-- `stage2_collect_rankings`: builds the label map over Stage-1 successes
in collection order, fans the ranking prompt out to the active models
(abstracted by `env2`), and keeps a record for every model that returned
non-empty content. -/
def stage2_collect_rankings (env2 : String → Option Resp)
    (stage1 : List S1Entry) (active : List String) :
    List Record × List (String × String) :=
  let successful := stage1.filter isSuccessEntry
  let label_to_model :=
    successful.enum.map fun p => (labelOfIdx p.1, p.2.modelId)
  let recs := (fanout env2 active).filterMap fun mr =>
    (contentOf mr.2).map fun c =>
      ({ model := mr.1, ranking := c,
         parsed_ranking := parse_ranking_from_text c } : Record)
  (recs, label_to_model)

/-! ### Aggregator (`calculate_aggregate_rankings`) -/

/-- `defaultdict(list)` insertion: append `p` to the positions of `m`,
creating the key at the end on first touch. -/
def addPos : List (String × List Nat) → String → Nat → List (String × List Nat)
  | [], m, p => [(m, [p])]
  | (k, ps) :: rest, m, p =>
    if k = m then (k, ps ++ [p]) :: rest else (k, ps) :: addPos rest m p

/-- Association-list lookup (Python dict membership / indexing). -/
def lookupA {α : Type} : List (String × α) → String → Option α
  | [], _ => none
  | (k, v) :: rest, m => if k = m then some v else lookupA rest m

/-- Walk one parsed ranking: append the 1-based position of every label
resolvable through the label map, dropping unresolvable labels. -/
def walkParsed (l2m : List (String × String)) :
    List (String × List Nat) → Nat → List String → List (String × List Nat)
  | mp, _, [] => mp
  | mp, pos, lab :: rest =>
    match lookupA l2m lab with
    | some m => walkParsed l2m (addPos mp m pos) (pos + 1) rest
    | none => walkParsed l2m mp (pos + 1) rest

/-- One aggregation iteration: re-parse the record's raw ranking text and
walk it with `enumerate(..., start=1)`. -/
def collectRecord (l2m : List (String × String))
    (mp : List (String × List Nat)) (rec : Record) :
    List (String × List Nat) :=
  walkParsed l2m mp 1 (parse_ranking_from_text rec.ranking)

/-- `model_positions` after the collection loop. -/
def buildPositions (records : List Record) (l2m : List (String × String)) :
    List (String × List Nat) :=
  records.foldl (collectRecord l2m) []

/-- One aggregate entry: model, average rank, number of contributing
positions. Floats are idealised as rationals. -/
structure AggEntry where
  model : String
  average_rank : ℚ
  rankings_count : Nat
deriving Repr, DecidableEq

/-- `round(x, 2)`: rounding to 2 decimal places over the rational
idealisation of floats. -/
def round2 (q : ℚ) : ℚ := ((round (q * 100) : ℤ) : ℚ) / 100

/-- The aggregate entry of one `model_positions` item. -/
def aggEntryOf (mps : String × List Nat) : AggEntry :=
  { model := mps.1,
    average_rank := round2 ((mps.2.sum : ℚ) / (mps.2.length : ℚ)),
    rankings_count := mps.2.length }

/-- The pre-sort aggregate list, in `model_positions` key order (the
`if positions` guard of the source never drops an entry, since every stored
list is nonempty). -/
def preAggregate (records : List Record) (l2m : List (String × String)) :
    List AggEntry :=
  (buildPositions records l2m).foldl
    (fun acc mps => if mps.2 = [] then acc else acc ++ [aggEntryOf mps]) []

/-- The sort key order: ascending by average rank. -/
def aggLE (a b : AggEntry) : Prop := a.average_rank ≤ b.average_rank

instance : DecidableRel aggLE := fun a b =>
  inferInstanceAs (Decidable (a.average_rank ≤ b.average_rank))

instance : IsTotal AggEntry aggLE :=
  ⟨fun a b => le_total a.average_rank b.average_rank⟩

instance : IsTrans AggEntry aggLE :=
  ⟨fun _ _ _ hab hbc => le_trans hab hbc⟩

/-- `calculate_aggregate_rankings` translated from the source:
collect positions by re-parsing each record's raw text, average, and sort
ascending by average rank with a stable sort. -/
def calculate_aggregate_rankings (records : List Record)
    (l2m : List (String × String)) : List AggEntry :=
  List.insertionSort aggLE (preAggregate records l2m)

/-- Modelled from the claim's words (for the refinement comparison): the
same aggregation, reading each record's stored `parsed_ranking` field
instead of re-parsing the raw text. -/
def buildPositionsStored (records : List Record)
    (l2m : List (String × String)) : List (String × List Nat) :=
  records.foldl (fun mp rec => walkParsed l2m mp 1 rec.parsed_ranking) []

/-- The stored-field variant of the aggregator. -/
def calculate_aggregate_rankings_stored (records : List Record)
    (l2m : List (String × String)) : List AggEntry :=
  List.insertionSort aggLE
    ((buildPositionsStored records l2m).foldl
      (fun acc mps => if mps.2 = [] then acc else acc ++ [aggEntryOf mps]) [])

/-! ### Stage 3 (`stage3_synthesize_final`)

The network is abstracted as `env : Nat → Option Resp`; `env k` is the
response of the k-th `query_model` call of the cascade (0 = first chairman
attempt, 1 = second, 2, 3, … = the successive backup dispatches).
-/

/-- One attempt-log entry: success entries carry no error keys. -/
structure Attempt where
  model : String
  ok : Bool
  error : Option String
  errorType : Option String
deriving Repr, DecidableEq

/-- A successful attempt record `{"model": m, "status": "success"}`. -/
def okAttempt (m : String) : Attempt := ⟨m, true, none, none⟩

/-- A failed attempt record with the per-key defaults of the source. -/
def failAttempt (m : String) : Option Resp → Attempt
  | none => ⟨m, false, some "No response", some "no_response"⟩
  | some r =>
    ⟨m, false, some (r.error.getD "Unknown error"),
      some (r.errorType.getD "unknown")⟩

/-- The Stage-3 return dict. -/
structure ChairmanResult where
  model : String
  response : Option String
  ok : Bool
  error : Option String
  errorType : Option String
  original_chairman : Option String
  attempts : List Attempt
deriving Repr, DecidableEq

/-- The terminal all-failed result built from the attempts log. -/
def stage3AllFailed (chairman : String) (attempts : List Attempt) :
    ChairmanResult :=
  { model := chairman, response := none, ok := false,
    error := some (match attempts.getLast? with
      | some a => a.error.getD "All chairman models failed"
      | none => "All models failed"),
    errorType := some (match attempts.getLast? with
      | some a => a.errorType.getD "all_failed"
      | none => "all_failed"),
    original_chairman := none, attempts := attempts }

/-- The backup cascade: iterate the pool, skip models already tried (the
skip makes no `query_model` call, so the call counter does not advance),
return on the first success, and fall through to the all-failed result. -/
def stage3Backups (env : Nat → Option Resp) (chairman : String) :
    Nat → List String → List Attempt → List String → ChairmanResult
  | _, _, attempts, [] => stage3AllFailed chairman attempts
  | callIdx, tried, attempts, b :: rest =>
    if b ∈ tried then stage3Backups env chairman callIdx tried attempts rest
    else
      match contentOf (env callIdx) with
      | some c =>
        { model := b, response := some c, ok := true, error := none,
          errorType := none, original_chairman := some chairman,
          attempts := attempts ++ [okAttempt b] }
      | none =>
        stage3Backups env chairman (callIdx + 1) (tried ++ [b])
          (attempts ++ [failAttempt b (env callIdx)]) rest

/-- `stage3_synthesize_final` translated from the source: two chairman
attempts, then the backup cascade over the fixed pool. -/
def stage3_synthesize_final (env : Nat → Option Resp) (chairman : String) :
    ChairmanResult :=
  match contentOf (env 0) with
  | some c =>
    { model := chairman, response := some c, ok := true, error := none,
      errorType := none, original_chairman := none,
      attempts := [okAttempt chairman] }
  | none =>
    let a1 := failAttempt chairman (env 0)
    match contentOf (env 1) with
    | some c =>
      { model := chairman, response := some c, ok := true, error := none,
        errorType := none, original_chairman := none,
        attempts := [a1, okAttempt chairman] }
    | none =>
      let a2 := failAttempt chairman (env 1)
      stage3Backups env chairman 2 [chairman] [a1, a2] BACKUP_MODELS

/-! ### Full pipeline (`run_full_council`) -/

/-- The literal error result returned when Stage 1 yields no successes
(the source dict carries no attempts key). -/
def allFailedResult : ChairmanResult :=
  { model := "error", response := none, ok := false,
    error := some "All models failed to respond. Please try again.",
    errorType := some "all_failed", original_chairman := none,
    attempts := [] }

/-- The metadata value: the empty dict of the short-circuit branch, or the
label map plus aggregate rankings. -/
inductive Metadata where
  | empty
  | full (label_to_model : List (String × String)) (aggregate : List AggEntry)
deriving Repr, DecidableEq

/-- `run_full_council` translated from the source: Stage 1, the
zero-success short circuit, then Stages 2, aggregation and 3. -/
def run_full_council (env1 : Nat → String → Option Resp)
    (env2 : String → Option Resp) (env3 : Nat → Option Resp)
    (council : List String) (chairman : String) :
    List S1Entry × List Record × ChairmanResult × Metadata :=
  let s1 := stage1_collect_responses env1 council
  if s1.filter isSuccessEntry = [] then (s1, [], allFailedResult, .empty)
  else
    let s2 := stage2_collect_rankings env2 s1 council
    let agg := calculate_aggregate_rankings s2.1 s2.2
    let s3 := stage3_synthesize_final env3 chairman
    (s1, s2.1, s3, .full s2.2 agg)

/-! ### Dispatcher (`openrouter.query_model`)

The transport is abstracted as the observable outcome of the HTTP exchange:
timeout, a raised non-2xx status, a parsed 2xx body, or any other fault.
The claims concern how each outcome is classified, which the translation
below performs exactly as the source's `try`/`except` chain does.
-/

/-- The error object embedded in a response body:
`message` and `code` keys, each possibly absent. -/
structure ApiErr where
  message : Option String
  code : Option Int
deriving Repr, DecidableEq

/-- One element of `choices`; its `message` dict's keys. -/
structure Choice where
  content : Option String
deriving Repr, DecidableEq

/-- A parsed 2xx response body: an optional embedded error object plus the
`choices` list (an absent key behaves as the empty list). -/
structure Body where
  error : Option ApiErr
  choices : List Choice
deriving Repr, DecidableEq

/-- The observable outcome of one HTTP exchange. -/
inductive HttpOutcome where
  | timeout
  | statusError (status : Nat) (detail : String)
  | ok (body : Body)
  | otherFault (msg : String)
deriving Repr, DecidableEq

/-- `query_model` translated from the source: classify the outcome into a
result dict; every path returns, none raises. `tmo` renders the timeout
value of the message. -/
def query_model (tmo : String) (o : HttpOutcome) : Resp :=
  match o with
  | .timeout =>
    { content := none, error := some ("Timeout (" ++ tmo ++ "s)"),
      errorType := some "timeout" }
  | .statusError s d =>
    { content := none,
      error := some ("HTTP " ++ toString s ++ ": " ++ d),
      errorType := some (if s = 429 then "rate_limit" else "http_error") }
  | .ok body =>
    match body.error with
    | some e =>
      { content := none, error := some (e.message.getD "error"),
        errorType :=
          some (if e.code.getD 0 = 429 then "rate_limit" else "api_error") }
    | none =>
      match body.choices with
      | [] =>
        { content := none, error := some "Empty response (no choices)",
          errorType := some "empty_response" }
      | ch :: _ => { content := ch.content, error := none, errorType := none }
  | .otherFault msg =>
    { content := none, error := some msg, errorType := some "unknown" }

/-- The classification table exactly as the claim states it, in its priority
order: timeout, transport 429, other non-2xx, embedded error object (429 or
not), missing choices, anything else; a body with choices and no embedded
error is unclassified (a success). -/
def specErrorClass : HttpOutcome → Option String
  | .timeout => some "timeout"
  | .statusError s _ => some (if s = 429 then "rate_limit" else "http_error")
  | .ok body =>
    match body.error with
    | some e => some (if e.code.getD 0 = 429 then "rate_limit" else "api_error")
    | none => if body.choices = [] then some "empty_response" else none
  | .otherFault _ => some "unknown"

/-! ### Observables and concrete scenarios used by the verification -/

/-- The success pairs a fan-out's result list contributes, in order. -/
def succOf (ps : List (String × Option Resp)) : List (String × String) :=
  ps.filterMap fun p => (contentOf p.2).map fun c => (p.1, c)

/-- The failed pairs of a fan-out's result list, in order. -/
def failOf (ps : List (String × Option Resp)) : List (String × Option Resp) :=
  ps.filter fun p => !(contentOf p.2).isSome

/-- The Stage-1 loop invariant relating a mid-loop state to the state `st0`
left by the initial fan-out: the success bookkeeping is consistent and free
of duplicates, the failure details stay frozen at their initial capture,
and the failed list is exactly the initially failed models that have not
succeeded since. -/
def S1Inv (st0 st : S1State) : Prop :=
  st.succeeded = st.results.map Prod.fst
  ∧ st.succeeded.Nodup
  ∧ st.failedDetails = st0.failedDetails
  ∧ st.failedModels =
      st0.failedModels.filter fun m => decide (m ∉ st.succeeded)

/-- The 1-based positions (starting at `pos`) of the labels of a parsed
ranking that the label map resolves to model `m`. -/
def positionsFrom (l2m : List (String × String)) (m : String) :
    Nat → List String → List Nat
  | _, [] => []
  | pos, lab :: rest =>
    if lookupA l2m lab = some m then
      pos :: positionsFrom l2m m (pos + 1) rest
    else positionsFrom l2m m (pos + 1) rest

/-- All positions model `m` collects over a record list: per record, the
1-based positions of its resolvable labels, in record order. -/
def allPositions (records : List Record) (l2m : List (String × String))
    (m : String) : List Nat :=
  records.flatMap fun r => positionsFrom l2m m 1 (parse_ranking_from_text r.ranking)

/-- A failing response (concrete scenario building block). -/
def respErr : Resp := { content := none, error := some "boom", errorType := some "timeout" }

/-- A successful response (concrete scenario building block). -/
def respAns : Resp := { content := some "hola", error := none, errorType := none }

/-- A Stage-1 oracle on which every dispatch fails. -/
def envFail : Nat → String → Option Resp := fun _ _ => some respErr

/-- A single-fan-out oracle on which every dispatch fails. -/
def envFail1 : String → Option Resp := fun _ => some respErr

/-- A single-fan-out oracle on which every dispatch succeeds. -/
def envOk1 : String → Option Resp := fun _ => some respAns

/-- A Stage-1 oracle on which only model `"m1"` ever succeeds. -/
def envOnlyM1 : Nat → String → Option Resp :=
  fun _ m => if m = "m1" then some respAns else some respErr

/-- A four-model council on which to exercise the retry cap. -/
def modelsFour : List String := ["m1", "m2", "m3", "m4"]

/-- A Stage-3 oracle: the first two calls fail, the third succeeds. -/
def envS3Third : Nat → Option Resp :=
  fun k => if k < 2 then some respErr else some respAns

/-- A Stage-3 oracle on which every call fails. -/
def envS3Fail : Nat → Option Resp := fun _ => some respErr

/-- A Stage-3 oracle on which every call succeeds. -/
def envS3Ok : Nat → Option Resp := fun _ => some respAns

end Council

/-! ## Theorems -/

namespace Council

/-! ### C8 — dispatcher failure classification -/

/-- C8: for every model dispatch outcome, `query_model` returns a result
(the embedding is a total function — the source catches every exception)
whose classification is exactly the claim's priority table: timeout →
`timeout`; transport 429 → `rate_limit`, other non-2xx → `http_error`; an
error object embedded in a 2xx body → `rate_limit` iff its code is 429,
else `api_error`, regardless of the choices; a body with no choices →
`empty_response`; any other fault → `unknown`. -/
theorem query_model_classifies (tmo : String) (o : HttpOutcome) :
    (query_model tmo o).errorType = specErrorClass o := by
  cases o with
  | timeout => rfl
  | statusError s d => rfl
  | ok body =>
    cases hb : body.error with
    | some e => simp [query_model, specErrorClass, hb]
    | none =>
      cases hc : body.choices with
      | nil => simp [query_model, specErrorClass, hb, hc]
      | cons ch rest => simp [query_model, specErrorClass, hb, hc]
  | otherFault m => rfl

/-! ### C10 — aggregator re-parses rather than reading the stored field -/

/-- Folding the collection loop over records whose stored `parsed_ranking`
equals the re-parse of their raw text gives the same position map as the
stored-field variant. -/
theorem foldl_collect_congr (l2m : List (String × String)) :
    ∀ (recs : List Record) (mp : List (String × List Nat)),
      (∀ r ∈ recs, r.parsed_ranking = parse_ranking_from_text r.ranking) →
      recs.foldl (collectRecord l2m) mp =
        recs.foldl (fun mp r => walkParsed l2m mp 1 r.parsed_ranking) mp := by
  intro recs
  induction recs with
  | nil => intro mp _; rfl
  | cons r rest ih =>
    intro mp h
    simp only [List.foldl_cons]
    have hr : collectRecord l2m mp r = walkParsed l2m mp 1 r.parsed_ranking := by
      rw [collectRecord, h r (by simp)]
    rw [hr]
    exact ih _ fun x hx => h x (by simp [hx])

/-- Every record Stage 2 outputs stores exactly the parse of its raw
text. -/
theorem stage2_stores_parse (env2 : String → Option Resp)
    (stage1 : List S1Entry) (active : List String) :
    ∀ r ∈ (stage2_collect_rankings env2 stage1 active).1,
      r.parsed_ranking = parse_ranking_from_text r.ranking := by
  intro r hr
  simp only [stage2_collect_rankings, List.mem_filterMap] at hr
  obtain ⟨mr, _, hmr⟩ := hr
  cases hc : contentOf mr.2 with
  | none => rw [hc] at hmr; simp at hmr
  | some c => rw [hc] at hmr; simp at hmr; rw [← hmr]

/-- C10: the aggregator re-parses each record's raw text; since the parser
is pure and Stage 2 stored exactly that parse, the aggregate over any
Stage-2 output equals the aggregate the stored `parsed_ranking` fields
would give. -/
theorem aggregate_reparse_eq_stored (env2 : String → Option Resp)
    (stage1 : List S1Entry) (active : List String) :
    calculate_aggregate_rankings (stage2_collect_rankings env2 stage1 active).1
        (stage2_collect_rankings env2 stage1 active).2 =
      calculate_aggregate_rankings_stored
        (stage2_collect_rankings env2 stage1 active).1
        (stage2_collect_rankings env2 stage1 active).2 := by
  have key :
      buildPositions (stage2_collect_rankings env2 stage1 active).1
          (stage2_collect_rankings env2 stage1 active).2 =
        buildPositionsStored (stage2_collect_rankings env2 stage1 active).1
          (stage2_collect_rankings env2 stage1 active).2 := by
    rw [buildPositions, buildPositionsStored]
    exact foldl_collect_congr _ _ _ (stage2_stores_parse env2 stage1 active)
  rw [calculate_aggregate_rankings, calculate_aggregate_rankings_stored,
    preAggregate, key, buildPositionsStored]

/-! ### C7 — zero Stage-1 successes short-circuits the pipeline -/

/-- C7: when Stage 1 yields no successful entry, the pipeline returns the
Stage-1 list, an empty rankings list, the explicit `all_failed` result and
empty metadata — and its output does not depend on the Stage-2 or Stage-3
oracles at all (no ranking fan-out, no chairman dispatch). -/
theorem council_zero_success_short_circuit
    (env1 : Nat → String → Option Resp) (env2 env2' : String → Option Resp)
    (env3 env3' : Nat → Option Resp) (council : List String)
    (chairman : String)
    (h : (stage1_collect_responses env1 council).filter isSuccessEntry = []) :
    run_full_council env1 env2 env3 council chairman =
        (stage1_collect_responses env1 council, [], allFailedResult,
          Metadata.empty)
    ∧ run_full_council env1 env2 env3 council chairman =
        run_full_council env1 env2' env3' council chairman
    ∧ allFailedResult.errorType = some "all_failed"
    ∧ allFailedResult.ok = false := by
  refine ⟨?_, ?_, rfl, rfl⟩ <;> simp [run_full_council, h]

/-- Witness for C7: a one-model council where every Stage-1 dispatch fails;
the hypothesis evaluates, and the conclusion is obtained from the theorem
with two visibly different Stage-2/Stage-3 oracles. -/
theorem council_zero_success_short_circuit_witness :
    (stage1_collect_responses envFail ["m1"]).filter isSuccessEntry = []
    ∧ run_full_council envFail envFail1 envS3Fail ["m1"] "c0" =
        (stage1_collect_responses envFail ["m1"], [], allFailedResult,
          Metadata.empty)
    ∧ run_full_council envFail envFail1 envS3Fail ["m1"] "c0" =
        run_full_council envFail envOk1 envS3Ok ["m1"] "c0" := by
  have h : (stage1_collect_responses envFail ["m1"]).filter isSuccessEntry = [] := by
    decide
  exact ⟨h,
    (council_zero_success_short_circuit envFail envFail1 envOk1 envS3Fail
      envS3Ok ["m1"] "c0" h).1,
    (council_zero_success_short_circuit envFail envFail1 envOk1 envS3Fail
      envS3Ok ["m1"] "c0" h).2.1⟩

/-! ### C5 / C6 — Stage-3 cascade -/

/-- If the first pool model not yet tried succeeds on the next dispatch,
the cascade returns immediately with that model and a success attempt
appended; skipped (already tried) models consume no dispatch. -/
theorem stage3Backups_first_untried_success (env : Nat → Option Resp)
    (chairman : String) :
    ∀ (bs : List String) (k : Nat) (tried : List String)
      (attempts : List Attempt) (b c : String),
      (bs.filter fun x => decide (x ∉ tried)).head? = some b →
      contentOf (env k) = some c →
      stage3Backups env chairman k tried attempts bs =
        { model := b, response := some c, ok := true, error := none,
          errorType := none, original_chairman := some chairman,
          attempts := attempts ++ [okAttempt b] } := by
  intro bs
  induction bs with
  | nil => intro k tried attempts b c hb _; simp at hb
  | cons b0 rest ih =>
    intro k tried attempts b c hb hc
    by_cases hmem : b0 ∈ tried
    · have hfe : (List.filter (fun x => decide (x ∉ tried)) (b0 :: rest)) =
          List.filter (fun x => decide (x ∉ tried)) rest := by
        simp [List.filter_cons, hmem]
      rw [hfe] at hb
      rw [stage3Backups, if_pos hmem]
      exact ih k tried attempts b c hb hc
    · have hbe : b0 = b := by
        rw [List.filter_cons] at hb
        simp [hmem] at hb
        exact hb
      rw [stage3Backups, if_neg hmem, hc, hbe]

/-- C5: when both chairman attempts fail and the first backup that is not
the chairman succeeds, Stage 3 returns that backup as `model`, records
`original_chairman`, reports success, and logs exactly three attempts: the
two chairman failures followed by the backup success. The pool is walked in
its fixed priority order, skipping the chairman (the only model tried so
far). -/
theorem stage3_first_backup_success (env : Nat → Option Resp)
    (chairman b c : String)
    (h0 : contentOf (env 0) = none) (h1 : contentOf (env 1) = none)
    (hb : (BACKUP_MODELS.filter fun x => decide (x ≠ chairman)).head? = some b)
    (hc : contentOf (env 2) = some c) :
    stage3_synthesize_final env chairman =
        { model := b, response := some c, ok := true, error := none,
          errorType := none, original_chairman := some chairman,
          attempts := [failAttempt chairman (env 0),
            failAttempt chairman (env 1), okAttempt b] }
    ∧ (stage3_synthesize_final env chairman).attempts.length = 3 := by
  have hb' : (BACKUP_MODELS.filter fun x => decide (x ∉ [chairman])).head? = some b := by
    have hfe : (fun x => decide (x ∉ [chairman])) = fun x => decide (x ≠ chairman) := by
      funext x; simp
    rw [hfe]; exact hb
  have hmain : stage3_synthesize_final env chairman =
      { model := b, response := some c, ok := true, error := none,
        errorType := none, original_chairman := some chairman,
        attempts := [failAttempt chairman (env 0),
          failAttempt chairman (env 1), okAttempt b] } := by
    rw [stage3_synthesize_final, h0, h1]
    exact stage3Backups_first_untried_success env chairman BACKUP_MODELS 2
      [chairman] [failAttempt chairman (env 0), failAttempt chairman (env 1)]
      b c hb' hc
  exact ⟨hmain, by rw [hmain]; rfl⟩

/-- Witness for C5: a chairman outside the pool whose two attempts fail and
whose first backup answers. -/
theorem stage3_first_backup_success_witness :
    contentOf (envS3Third 0) = none ∧ contentOf (envS3Third 1) = none
    ∧ (BACKUP_MODELS.filter fun x => decide (x ≠ "c0")).head? =
        some "google/gemma-3-12b-it:free"
    ∧ contentOf (envS3Third 2) = some "hola"
    ∧ stage3_synthesize_final envS3Third "c0" =
        { model := "google/gemma-3-12b-it:free", response := some "hola",
          ok := true, error := none, errorType := none,
          original_chairman := some "c0",
          attempts := [failAttempt "c0" (envS3Third 0),
            failAttempt "c0" (envS3Third 1),
            okAttempt "google/gemma-3-12b-it:free"] }
    ∧ (stage3_synthesize_final envS3Third "c0").attempts.length = 3 :=
  ⟨by decide, by decide, by decide, by decide,
    (stage3_first_backup_success envS3Third "c0" "google/gemma-3-12b-it:free"
      "hola" (by decide) (by decide) (by decide) (by decide)).1,
    (stage3_first_backup_success envS3Third "c0" "google/gemma-3-12b-it:free"
      "hola" (by decide) (by decide) (by decide) (by decide)).2⟩

/-- When every dispatch fails, the cascade ends in the all-failed result,
appending one failed attempt per pool model not yet tried. -/
theorem stage3Backups_all_fail (env : Nat → Option Resp) (chairman : String)
    (hall : ∀ j, contentOf (env j) = none) :
    ∀ (bs : List String) (k : Nat) (tried : List String)
      (attempts : List Attempt), bs.Nodup →
      ∃ extra : List Attempt,
        stage3Backups env chairman k tried attempts bs =
            stage3AllFailed chairman (attempts ++ extra)
        ∧ extra.length = (bs.filter fun x => decide (x ∉ tried)).length
        ∧ ∀ a ∈ extra, a.ok = false ∧ (∃ s, a.error = some s)
            ∧ ∃ s, a.errorType = some s := by
  intro bs
  induction bs with
  | nil =>
    intro k tried attempts _
    exact ⟨[], by simp [stage3Backups], by simp, by simp⟩
  | cons b0 rest ih =>
    intro k tried attempts hnd
    have hnd' : rest.Nodup := (List.nodup_cons.mp hnd).2
    have hb0 : b0 ∉ rest := (List.nodup_cons.mp hnd).1
    by_cases hmem : b0 ∈ tried
    · obtain ⟨extra, he, hl, hp⟩ := ih k tried attempts hnd'
      refine ⟨extra, ?_, ?_, hp⟩
      · rw [stage3Backups, if_pos hmem]; exact he
      · rw [hl]; simp [List.filter_cons, hmem]
    · obtain ⟨extra, he, hl, hp⟩ :=
        ih (k + 1) (tried ++ [b0]) (attempts ++ [failAttempt b0 (env k)]) hnd'
      refine ⟨failAttempt b0 (env k) :: extra, ?_, ?_, ?_⟩
      · rw [stage3Backups, if_neg hmem, hall k, he]
        simp
      · have hfe : rest.filter (fun x => decide (x ∉ tried ++ [b0])) =
            rest.filter fun x => decide (x ∉ tried) := by
          apply List.filter_congr
          intro x hx
          have hxb : x ≠ b0 := fun hxe => hb0 (hxe ▸ hx)
          simp [hxb]
        rw [List.length_cons, hl, hfe]
        simp [List.filter_cons, hmem]
      · intro a ha
        rcases List.mem_cons.mp ha with h | h
        · subst h
          cases henv : env k with
          | none => exact ⟨rfl, ⟨_, rfl⟩, ⟨_, rfl⟩⟩
          | some r => exact ⟨rfl, ⟨_, rfl⟩, ⟨_, rfl⟩⟩
        · exact hp a h

/-- C6: when the two chairman attempts and every untried backup all fail,
Stage 3 returns (rather than raises) a failed result whose model is the
chairman, whose attempts log has exactly `2 + number of backups tried`
entries, and whose error and error type are exactly those of the last
logged failure. -/
theorem stage3_all_fail_terminal (env : Nat → Option Resp) (chairman : String)
    (hall : ∀ j, contentOf (env j) = none) :
    (stage3_synthesize_final env chairman).ok = false
    ∧ (stage3_synthesize_final env chairman).response = none
    ∧ (stage3_synthesize_final env chairman).model = chairman
    ∧ (stage3_synthesize_final env chairman).attempts.length =
        2 + (BACKUP_MODELS.filter fun x => decide (x ≠ chairman)).length
    ∧ ∃ a, (stage3_synthesize_final env chairman).attempts.getLast? = some a
        ∧ a.ok = false
        ∧ (stage3_synthesize_final env chairman).error = a.error
        ∧ (stage3_synthesize_final env chairman).errorType = a.errorType := by
  have hnd : BACKUP_MODELS.Nodup := by decide
  obtain ⟨extra, he, hl, hp⟩ :=
    stage3Backups_all_fail env chairman hall BACKUP_MODELS 2 [chairman]
      [failAttempt chairman (env 0), failAttempt chairman (env 1)] hnd
  have hres : stage3_synthesize_final env chairman =
      stage3AllFailed chairman
        ([failAttempt chairman (env 0), failAttempt chairman (env 1)] ++ extra) := by
    rw [stage3_synthesize_final, hall 0, hall 1]
    exact he
  have hfe : (BACKUP_MODELS.filter fun x => decide (x ∉ [chairman])) =
      BACKUP_MODELS.filter fun x => decide (x ≠ chairman) := by
    apply List.filter_congr
    intro x _; simp
  have hlast : ∃ a,
      ([failAttempt chairman (env 0), failAttempt chairman (env 1)] ++
          extra).getLast? = some a
      ∧ a.ok = false ∧ (∃ s, a.error = some s) ∧ ∃ s, a.errorType = some s := by
    cases hx : extra.getLast? with
    | some a =>
      refine ⟨a, ?_, hp a (List.mem_of_getLast?_eq_some hx)⟩
      rw [List.getLast?_append, hx]
      rfl
    | none =>
      have hxe : extra = [] := by
        cases extra with
        | nil => rfl
        | cons hd tl => simp [List.getLast?] at hx
      subst hxe
      refine ⟨failAttempt chairman (env 1), by simp, ?_⟩
      cases henv : env 1 with
      | none => exact ⟨rfl, ⟨_, rfl⟩, ⟨_, rfl⟩⟩
      | some r => exact ⟨rfl, ⟨_, rfl⟩, ⟨_, rfl⟩⟩
  obtain ⟨a, hga, hok, ⟨s, hs⟩, ⟨t, ht⟩⟩ := hlast
  refine ⟨by rw [hres]; rfl, by rw [hres]; rfl, by rw [hres]; rfl, ?_, ?_⟩
  · rw [hres]
    show ([failAttempt chairman (env 0), failAttempt chairman (env 1)] ++
        extra).length = _
    rw [List.length_append, hl, hfe]
    simp
  · refine ⟨a, ?_, hok, ?_, ?_⟩
    · rw [hres]
      exact hga
    · rw [hres]
      simp only [stage3AllFailed]
      rw [hga]
      simp [hs]
    · rw [hres]
      simp only [stage3AllFailed]
      rw [hga]
      simp [ht]

/-! ### C4 — rank aggregation -/

/-- Lookup after a `defaultdict` append: the touched key gains `p` at the
end of its list, every other key is untouched. -/
theorem lookupA_addPos (k m : String) (p : Nat) :
    ∀ mp : List (String × List Nat),
      lookupA (addPos mp k p) m =
        if k = m then some ((lookupA mp m).getD [] ++ [p])
        else lookupA mp m := by
  intro mp
  induction mp with
  | nil => by_cases h : k = m <;> simp [addPos, lookupA, h]
  | cons kv rest ih =>
    obtain ⟨k0, ps⟩ := kv
    by_cases h0 : k0 = k <;> by_cases hm : k0 = m
    · subst h0; subst hm; simp [addPos, lookupA]
    · subst h0
      simp [addPos, lookupA, hm]
    · subst hm
      have hkm : ¬(k = k0) := fun h => h0 h.symm
      simp [addPos, lookupA, h0, hkm]
    · simp [addPos, lookupA, h0, hm, ih]

/-- A key is absent from the association list iff its lookup is `none`. -/
theorem lookupA_eq_none {α : Type} (m : String) :
    ∀ mp : List (String × α),
      lookupA mp m = none ↔ m ∉ mp.map Prod.fst := by
  intro mp
  induction mp with
  | nil => simp [lookupA]
  | cons kv rest ih =>
    obtain ⟨k0, v0⟩ := kv
    by_cases h : k0 = m
    · simp [lookupA, h]
    · have h' : ¬(m = k0) := fun hh => h hh.symm
      simp [lookupA, h, h', ih]

/-- With nodup keys, membership determines the lookup. -/
theorem lookupA_of_mem_nodup {α : Type} (k : String) (v : α) :
    ∀ mp : List (String × α), (mp.map Prod.fst).Nodup → (k, v) ∈ mp →
      lookupA mp k = some v := by
  intro mp
  induction mp with
  | nil => simp
  | cons kv rest ih =>
    obtain ⟨k0, v0⟩ := kv
    intro hnd hmem
    rw [List.map_cons] at hnd
    obtain ⟨hk, hrest⟩ := List.nodup_cons.mp hnd
    rcases List.mem_cons.mp hmem with h | h
    · rw [Prod.mk.injEq] at h
      obtain ⟨h1, h2⟩ := h
      subst h1; subst h2
      simp [lookupA]
    · have hkmem : k ∈ rest.map Prod.fst := List.mem_map_of_mem Prod.fst h
      have hne : ¬(k0 = k) := fun he => hk (he ▸ hkmem)
      simp [lookupA, hne, ih hrest h]

/-- Keys of `addPos`: unchanged when present, appended when new. -/
theorem addPos_keys (k : String) (p : Nat) :
    ∀ mp : List (String × List Nat),
      (addPos mp k p).map Prod.fst =
        if (lookupA mp k).isSome then mp.map Prod.fst
        else mp.map Prod.fst ++ [k] := by
  intro mp
  induction mp with
  | nil => simp [addPos, lookupA]
  | cons kv rest ih =>
    obtain ⟨k0, ps⟩ := kv
    by_cases h0 : k0 = k
    · subst h0; simp [addPos, lookupA]
    · simp [addPos, lookupA, h0, ih]
      by_cases hs : (lookupA rest k).isSome <;> simp [hs]

/-- `addPos` preserves nodup keys. -/
theorem addPos_keys_nodup (k : String) (p : Nat)
    (mp : List (String × List Nat)) (h : (mp.map Prod.fst).Nodup) :
    ((addPos mp k p).map Prod.fst).Nodup := by
  rw [addPos_keys]
  by_cases hs : (lookupA mp k).isSome
  · rw [if_pos hs]; exact h
  · rw [if_neg hs]
    have hk : k ∉ mp.map Prod.fst :=
      (lookupA_eq_none k mp).mp (Option.not_isSome_iff_eq_none.mp hs)
    simp [List.nodup_append, h, hk]

/-- `addPos` preserves nonemptiness of every stored position list. -/
theorem addPos_vals_ne (k : String) (p : Nat) :
    ∀ mp : List (String × List Nat), (∀ kv ∈ mp, kv.2 ≠ []) →
      ∀ kv ∈ addPos mp k p, kv.2 ≠ [] := by
  intro mp
  induction mp with
  | nil =>
    intro _ kv hkv
    simp [addPos] at hkv
    simp [hkv]
  | cons kv0 rest ih =>
    obtain ⟨k0, ps⟩ := kv0
    intro h kv hkv
    by_cases h0 : k0 = k
    · subst h0
      simp [addPos] at hkv
      rcases hkv with h1 | h1
      · rw [h1]; simp
      · exact h kv (by simp [h1])
    · simp [addPos, h0] at hkv
      rcases hkv with h1 | h1
      · exact h kv (by simp [h1])
      · exact ih (fun x hx => h x (by simp [hx])) kv h1

/-- `walkParsed` preserves nonemptiness of every stored position list. -/
theorem walkParsed_vals_ne (l2m : List (String × String)) :
    ∀ (labs : List String) (pos : Nat) (mp : List (String × List Nat)),
      (∀ kv ∈ mp, kv.2 ≠ []) →
      ∀ kv ∈ walkParsed l2m mp pos labs, kv.2 ≠ [] := by
  intro labs
  induction labs with
  | nil => intro pos mp h; simpa [walkParsed] using h
  | cons lab rest ih =>
    intro pos mp h
    cases hl : lookupA l2m lab with
    | none => rw [walkParsed, hl]; exact ih _ _ h
    | some m => rw [walkParsed, hl]; exact ih _ _ (addPos_vals_ne m pos mp h)

/-- `walkParsed` preserves nodup keys. -/
theorem walkParsed_keys_nodup (l2m : List (String × String)) :
    ∀ (labs : List String) (pos : Nat) (mp : List (String × List Nat)),
      (mp.map Prod.fst).Nodup →
      ((walkParsed l2m mp pos labs).map Prod.fst).Nodup := by
  intro labs
  induction labs with
  | nil => intro pos mp h; simpa [walkParsed] using h
  | cons lab rest ih =>
    intro pos mp h
    cases hl : lookupA l2m lab with
    | none => rw [walkParsed, hl]; exact ih _ _ h
    | some m => rw [walkParsed, hl]; exact ih _ _ (addPos_keys_nodup m pos mp h)

/-- A model already holding positions accumulates, in order, the resolvable
positions of the walked ranking. -/
theorem lookupA_walkParsed_some (l2m : List (String × String)) (m : String) :
    ∀ (labs : List String) (pos : Nat) (mp : List (String × List Nat))
      (cur : List Nat), lookupA mp m = some cur →
      lookupA (walkParsed l2m mp pos labs) m =
        some (cur ++ positionsFrom l2m m pos labs) := by
  intro labs
  induction labs with
  | nil => intro pos mp cur h; simp [walkParsed, positionsFrom, h]
  | cons lab rest ih =>
    intro pos mp cur h
    cases hl : lookupA l2m lab with
    | none =>
      have hw : walkParsed l2m mp pos (lab :: rest) =
          walkParsed l2m mp (pos + 1) rest := by
        rw [walkParsed, hl]
      have hpf : positionsFrom l2m m pos (lab :: rest) =
          positionsFrom l2m m (pos + 1) rest := by
        rw [positionsFrom, if_neg (by simp [hl])]
      rw [hw, hpf]
      exact ih _ _ _ h
    | some m' =>
      have hw : walkParsed l2m mp pos (lab :: rest) =
          walkParsed l2m (addPos mp m' pos) (pos + 1) rest := by
        rw [walkParsed, hl]
      by_cases hm : m' = m
      · subst hm
        have hpf : positionsFrom l2m m' pos (lab :: rest) =
            pos :: positionsFrom l2m m' (pos + 1) rest := by
          rw [positionsFrom, if_pos hl]
        have hadd : lookupA (addPos mp m' pos) m' = some (cur ++ [pos]) := by
          rw [lookupA_addPos m' m' pos mp, if_pos rfl, h]
          rfl
        rw [hw, hpf, ih _ _ _ hadd]
        simp
      · have hpf : positionsFrom l2m m pos (lab :: rest) =
            positionsFrom l2m m (pos + 1) rest := by
          rw [positionsFrom, if_neg (by simp [hl, hm])]
        have hadd : lookupA (addPos mp m' pos) m = lookupA mp m := by
          rw [lookupA_addPos m' m pos mp, if_neg hm]
        rw [hw, hpf]
        exact ih _ _ _ (hadd.trans h)

/-- A model with no positions yet ends the walk with exactly the
resolvable positions of the ranking, or stays absent when there are
none. -/
theorem lookupA_walkParsed_none (l2m : List (String × String)) (m : String) :
    ∀ (labs : List String) (pos : Nat) (mp : List (String × List Nat)),
      lookupA mp m = none →
      lookupA (walkParsed l2m mp pos labs) m =
        if positionsFrom l2m m pos labs = [] then none
        else some (positionsFrom l2m m pos labs) := by
  intro labs
  induction labs with
  | nil => intro pos mp h; simp [walkParsed, positionsFrom, h]
  | cons lab rest ih =>
    intro pos mp h
    cases hl : lookupA l2m lab with
    | none =>
      have hw : walkParsed l2m mp pos (lab :: rest) =
          walkParsed l2m mp (pos + 1) rest := by
        rw [walkParsed, hl]
      have hpf : positionsFrom l2m m pos (lab :: rest) =
          positionsFrom l2m m (pos + 1) rest := by
        rw [positionsFrom, if_neg (by simp [hl])]
      rw [hw, hpf]
      exact ih _ _ h
    | some m' =>
      have hw : walkParsed l2m mp pos (lab :: rest) =
          walkParsed l2m (addPos mp m' pos) (pos + 1) rest := by
        rw [walkParsed, hl]
      by_cases hm : m' = m
      · subst hm
        have hpf : positionsFrom l2m m' pos (lab :: rest) =
            pos :: positionsFrom l2m m' (pos + 1) rest := by
          rw [positionsFrom, if_pos hl]
        have hadd : lookupA (addPos mp m' pos) m' = some [pos] := by
          rw [lookupA_addPos m' m' pos mp, if_pos rfl, h]
          rfl
        rw [hw, hpf, lookupA_walkParsed_some l2m m' rest _ _ _ hadd]
        simp
      · have hpf : positionsFrom l2m m pos (lab :: rest) =
            positionsFrom l2m m (pos + 1) rest := by
          rw [positionsFrom, if_neg (by simp [hl, hm])]
        have hadd : lookupA (addPos mp m' pos) m = lookupA mp m := by
          rw [lookupA_addPos m' m pos mp, if_neg hm]
        rw [hw, hpf]
        exact ih _ _ (hadd.trans h)

/-- Folding the whole record list: a model holding positions accumulates
all later resolvable positions, record by record. -/
theorem lookupA_foldl_some (l2m : List (String × String)) (m : String) :
    ∀ (recs : List Record) (mp : List (String × List Nat)) (cur : List Nat),
      lookupA mp m = some cur →
      lookupA (recs.foldl (collectRecord l2m) mp) m =
        some (cur ++ allPositions recs l2m m) := by
  intro recs
  induction recs with
  | nil => intro mp cur h; simp [allPositions, h]
  | cons r rest ih =>
    intro mp cur h
    rw [List.foldl_cons]
    simp only [collectRecord]
    have hstep := lookupA_walkParsed_some l2m m
      (parse_ranking_from_text r.ranking) 1 mp cur h
    rw [ih _ _ hstep]
    simp [allPositions]

/-- Folding the whole record list from an absent model: the final lookup is
exactly the concatenation of its resolvable positions per record. -/
theorem lookupA_foldl_none (l2m : List (String × String)) (m : String) :
    ∀ (recs : List Record) (mp : List (String × List Nat)),
      lookupA mp m = none →
      lookupA (recs.foldl (collectRecord l2m) mp) m =
        if allPositions recs l2m m = [] then none
        else some (allPositions recs l2m m) := by
  intro recs
  induction recs with
  | nil => intro mp h; simp [allPositions, h]
  | cons r rest ih =>
    intro mp h
    rw [List.foldl_cons]
    simp only [collectRecord]
    have hstep := lookupA_walkParsed_none l2m m
      (parse_ranking_from_text r.ranking) 1 mp h
    by_cases hp : positionsFrom l2m m 1 (parse_ranking_from_text r.ranking) = []
    · rw [if_pos hp] at hstep
      rw [ih _ hstep]
      simp [allPositions, collectRecord, hp]
    · rw [if_neg hp] at hstep
      rw [lookupA_foldl_some l2m m rest _ _ hstep]
      have hne : allPositions (r :: rest) l2m m ≠ [] := by
        simp only [allPositions, List.flatMap_cons]
        intro hc
        exact hp (List.append_eq_nil.mp hc).1
      rw [if_neg hne]
      simp [allPositions]

/-- The collected position map: lookup of any model gives exactly its
resolvable 1-based positions across all records, and a model with no
positions is absent. -/
theorem lookupA_buildPositions (records : List Record)
    (l2m : List (String × String)) (m : String) :
    lookupA (buildPositions records l2m) m =
      if allPositions records l2m m = [] then none
      else some (allPositions records l2m m) :=
  lookupA_foldl_none l2m m records [] rfl

/-- Every stored position list in the collected map is nonempty. -/
theorem buildPositions_vals_ne (records : List Record)
    (l2m : List (String × String)) :
    ∀ kv ∈ buildPositions records l2m, kv.2 ≠ [] := by
  rw [buildPositions]
  generalize hmp : ([] : List (String × List Nat)) = mp
  have hbase : ∀ kv ∈ mp, kv.2 ≠ [] := by rw [← hmp]; simp
  clear hmp
  induction records generalizing mp with
  | nil => simpa using hbase
  | cons r rest ih =>
    rw [List.foldl_cons]
    exact ih _ (walkParsed_vals_ne l2m _ 1 mp hbase)

/-- The collected map has nodup keys. -/
theorem buildPositions_keys_nodup (records : List Record)
    (l2m : List (String × String)) :
    ((buildPositions records l2m).map Prod.fst).Nodup := by
  rw [buildPositions]
  generalize hmp : ([] : List (String × List Nat)) = mp
  have hbase : (mp.map Prod.fst).Nodup := by rw [← hmp]; simp
  clear hmp
  induction records generalizing mp with
  | nil => simpa using hbase
  | cons r rest ih =>
    rw [List.foldl_cons]
    exact ih _ (walkParsed_keys_nodup l2m _ 1 mp hbase)

/-- With every stored list nonempty, the aggregation fold is a plain
map. -/
theorem foldl_agg_eq_map :
    ∀ (mp : List (String × List Nat)) (acc : List AggEntry),
      (∀ kv ∈ mp, kv.2 ≠ []) →
      mp.foldl (fun acc mps => if mps.2 = [] then acc else acc ++ [aggEntryOf mps])
          acc = acc ++ mp.map aggEntryOf := by
  intro mp
  induction mp with
  | nil => intro acc _; simp
  | cons kv rest ih =>
    intro acc h
    rw [List.foldl_cons, if_neg (h kv (by simp))]
    rw [ih _ fun x hx => h x (by simp [hx])]
    simp

/-- The pre-sort aggregate list is the collected map in key order, one
entry per model. -/
theorem preAggregate_eq_map (records : List Record)
    (l2m : List (String × String)) :
    preAggregate records l2m =
      (buildPositions records l2m).map aggEntryOf := by
  rw [preAggregate, foldl_agg_eq_map _ _ (buildPositions_vals_ne records l2m)]
  simp

/-- Inserting an entry whose average equals `v` prepends it to the
`v`-filtered list: everything it passes over has a strictly smaller
average. -/
theorem filter_orderedInsert_pos (v : ℚ) (x : AggEntry)
    (hx : x.average_rank = v) :
    ∀ l : List AggEntry,
      (List.orderedInsert aggLE x l).filter
          (fun e => decide (e.average_rank = v)) =
        x :: l.filter fun e => decide (e.average_rank = v) := by
  intro l
  induction l with
  | nil => simp [List.orderedInsert, hx]
  | cons y l ih =>
    by_cases hle : aggLE x y
    · rw [List.orderedInsert_of_le aggLE l hle]
      simp [List.filter_cons, hx]
    · have hy : y.average_rank ≠ v := by
        have : y.average_rank < x.average_rank := lt_of_not_le hle
        rw [hx] at this
        exact ne_of_lt this
      rw [List.orderedInsert, if_neg hle]
      have hstep : (y :: List.orderedInsert aggLE x l).filter
          (fun e => decide (e.average_rank = v)) =
          (List.orderedInsert aggLE x l).filter
            fun e => decide (e.average_rank = v) := by
        simp [List.filter_cons, hy]
      rw [hstep, ih]
      simp [List.filter_cons, hy]

/-- Inserting an entry whose average differs from `v` leaves the
`v`-filtered list unchanged. -/
theorem filter_orderedInsert_neg (v : ℚ) (x : AggEntry)
    (hx : x.average_rank ≠ v) :
    ∀ l : List AggEntry,
      (List.orderedInsert aggLE x l).filter
          (fun e => decide (e.average_rank = v)) =
        l.filter fun e => decide (e.average_rank = v) := by
  intro l
  induction l with
  | nil => simp [List.orderedInsert, hx]
  | cons y l ih =>
    by_cases hle : aggLE x y
    · rw [List.orderedInsert_of_le aggLE l hle]
      simp [List.filter_cons, hx]
    · rw [List.orderedInsert, if_neg hle]
      simp only [List.filter_cons, ih]

/-- Stability of the aggregate sort: for every average value, the entries
carrying it appear in the sorted output exactly in their pre-sort
(encounter) order. -/
theorem insertionSort_stable_filter (v : ℚ) :
    ∀ l : List AggEntry,
      (List.insertionSort aggLE l).filter
          (fun e => decide (e.average_rank = v)) =
        l.filter fun e => decide (e.average_rank = v) := by
  intro l
  induction l with
  | nil => rfl
  | cons a l ih =>
    rw [List.insertionSort]
    by_cases ha : a.average_rank = v
    · rw [filter_orderedInsert_pos v a ha, ih]
      simp [List.filter_cons, ha]
    · rw [filter_orderedInsert_neg v a ha, ih]
      simp [List.filter_cons, ha]

/-- C4: the aggregator collects, per model, the 1-based positions of every
label occurrence the label map resolves (silently dropping the rest);
outputs one entry exactly for the models with at least one position, whose
average is the mean of its positions rounded to two decimals and whose
count is the number of positions; and sorts ascending by average with a
stable sort, so equal averages keep their pre-sort encounter order. -/
theorem aggregate_characterisation (records : List Record)
    (l2m : List (String × String)) :
    (∀ m, lookupA (buildPositions records l2m) m =
        if allPositions records l2m m = [] then none
        else some (allPositions records l2m m))
    ∧ (∀ e ∈ calculate_aggregate_rankings records l2m,
        allPositions records l2m e.model ≠ []
        ∧ e.average_rank =
            round2 (((allPositions records l2m e.model).sum : ℚ) /
              ((allPositions records l2m e.model).length : ℚ))
        ∧ e.rankings_count = (allPositions records l2m e.model).length)
    ∧ (calculate_aggregate_rankings records l2m).Sorted aggLE
    ∧ List.Perm (calculate_aggregate_rankings records l2m)
        (preAggregate records l2m)
    ∧ ∀ v, (calculate_aggregate_rankings records l2m).filter
          (fun e => decide (e.average_rank = v)) =
        (preAggregate records l2m).filter
          fun e => decide (e.average_rank = v) := by
  refine ⟨fun m => lookupA_buildPositions records l2m m, ?_, ?_, ?_, ?_⟩
  · intro e he
    have hperm : List.Perm (calculate_aggregate_rankings records l2m)
        (preAggregate records l2m) := List.perm_insertionSort aggLE _
    have hpre : e ∈ preAggregate records l2m := hperm.mem_iff.mp he
    rw [preAggregate_eq_map] at hpre
    obtain ⟨kv, hkv, hkve⟩ := List.mem_map.mp hpre
    have hlook : lookupA (buildPositions records l2m) kv.1 = some kv.2 := by
      obtain ⟨k, ps⟩ := kv
      exact lookupA_of_mem_nodup k ps _
        (buildPositions_keys_nodup records l2m) hkv
    rw [lookupA_buildPositions records l2m kv.1] at hlook
    by_cases hnil : allPositions records l2m kv.1 = []
    · rw [if_pos hnil] at hlook
      exact absurd hlook (by simp)
    · rw [if_neg hnil] at hlook
      have hv : kv.2 = allPositions records l2m kv.1 := by
        injection hlook.symm
      subst hkve
      refine ⟨hnil, ?_, ?_⟩
      · show round2 ((kv.2.sum : ℚ) / (kv.2.length : ℚ)) =
          round2 (((allPositions records l2m kv.1).sum : ℚ) /
            ((allPositions records l2m kv.1).length : ℚ))
        rw [hv]
      · show kv.2.length = (allPositions records l2m kv.1).length
        rw [hv]
  · exact List.sorted_insertionSort aggLE _
  · exact List.perm_insertionSort aggLE _
  · intro v
    exact insertionSort_stable_filter v (preAggregate records l2m)

/-! ### C3 / C9 — ranking-parser tiers and marker splitting -/

/-- A found marker occurrence lies wholly inside the text. -/
theorem findSub_some_bound (marker : List Char) :
    ∀ (cs : List Char) (i : Nat), findSub marker cs = some i →
      i + marker.length ≤ cs.length := by
  intro cs
  induction cs with
  | nil =>
    intro i h
    by_cases hm : marker = []
    · simp [findSub, hm] at h
      simp [← h, hm]
    · simp [findSub, hm] at h
  | cons c rest ih =>
    intro i h
    rw [findSub] at h
    by_cases ht : (c :: rest).take marker.length = marker
    · rw [if_pos ht] at h
      have hi : i = 0 := by simpa using h.symm
      have hlen : marker.length = min marker.length (c :: rest).length := by
        conv_lhs => rw [← ht]
        simp
      subst hi
      simp only [Nat.zero_add]
      omega
    · rw [if_neg ht] at h
      obtain ⟨i', hi', rfl⟩ := Option.map_eq_some'.mp h
      have := ih i' hi'
      simp only [List.length_cons]
      omega

/-- The fuel of `splitSubFuel` is irrelevant once it covers the text
length. -/
theorem splitSubFuel_fuel_congr (marker : List Char) (hm : marker ≠ []) :
    ∀ (f1 : Nat) (cs : List Char) (f2 : Nat), cs.length ≤ f1 →
      cs.length ≤ f2 → splitSubFuel marker f1 cs = splitSubFuel marker f2 cs := by
  intro f1
  induction f1 with
  | zero =>
    intro cs f2 h1 _
    have hcs : cs = [] := List.eq_nil_of_length_eq_zero (by omega)
    subst hcs
    cases f2 with
    | zero => rfl
    | succ g => simp [splitSubFuel, findSub, hm]
  | succ f ih =>
    intro cs f2 h1 h2
    cases h : findSub marker cs with
    | none =>
      cases f2 with
      | zero => simp [splitSubFuel, h]
      | succ g => simp [splitSubFuel, h]
    | some i =>
      have hb := findSub_some_bound marker cs i h
      have hmp : 0 < marker.length := List.length_pos.mpr hm
      have hcs : 0 < cs.length := by omega
      cases f2 with
      | zero => omega
      | succ g =>
        simp only [splitSubFuel, h]
        refine congrArg _ (ih _ _ ?_ ?_) <;> simp [List.length_drop] <;> omega

/-- Unfolding `splitMarker` at a found first occurrence. -/
theorem splitMarker_cons (cs : List Char) (i : Nat)
    (h : findSub FINAL_MARKER cs = some i) :
    splitMarker cs =
      cs.take i :: splitMarker (cs.drop (i + FINAL_MARKER.length)) := by
  have hm : FINAL_MARKER ≠ [] := by decide
  have hb := findSub_some_bound FINAL_MARKER cs i h
  have hmp : 0 < FINAL_MARKER.length := List.length_pos.mpr hm
  obtain ⟨f, hf⟩ := Nat.exists_eq_succ_of_ne_zero (show cs.length ≠ 0 by omega)
  rw [splitMarker, hf]
  simp only [splitSubFuel, h]
  refine congrArg _ ?_
  rw [splitMarker]
  exact splitSubFuel_fuel_congr FINAL_MARKER hm f _ _
    (by simp [List.length_drop]; omega) (le_refl _)

/-- When the marker does not occur, the split is the whole text alone. -/
theorem splitMarker_none (cs : List Char)
    (h : findSub FINAL_MARKER cs = none) : splitMarker cs = [cs] := by
  cases cs with
  | nil => rfl
  | cons a l =>
    rw [splitMarker]
    simp only [List.length_cons, splitSubFuel, h]

/-- A marker split always has at least one segment. -/
theorem splitMarker_ne_nil (cs : List Char) : splitMarker cs ≠ [] := by
  cases h : findSub FINAL_MARKER cs with
  | none => rw [splitMarker_none cs h]; simp
  | some i => rw [splitMarker_cons cs i h]; simp

/-- The parser characterised through the text's marker structure: when the
marker occurs, tiers A and B run on the segment between its first and
second occurrences (the whole remainder when it occurs once); otherwise
bare label extraction runs on the whole text. -/
theorem parse_eq_tier (t : String) :
    parse_ranking_from_text t =
      if (findSub FINAL_MARKER t.data).isSome then
        tierAB (betweenFirstTwo t.data)
      else findallBare t.data := by
  cases h : findSub FINAL_MARKER t.data with
  | none => simp [parse_ranking_from_text, h]
  | some i =>
    have hcons := splitMarker_cons t.data i h
    have hne := splitMarker_ne_nil (t.data.drop (i + FINAL_MARKER.length))
    have hlen : 2 ≤ (splitMarker t.data).length := by
      rw [hcons]
      have : 0 < (splitMarker (t.data.drop (i + FINAL_MARKER.length))).length :=
        List.length_pos.mpr hne
      simp only [List.length_cons]
      omega
    have hget : (splitMarker t.data)[1]? = some (betweenFirstTwo t.data) := by
      rw [hcons, List.getElem?_cons_succ]
      cases h2 : findSub FINAL_MARKER (t.data.drop (i + FINAL_MARKER.length)) with
      | none =>
        rw [splitMarker_none _ h2]
        simp [betweenFirstTwo, afterFirstMarker, h, h2]
      | some j =>
        rw [splitMarker_cons _ j h2]
        simp [betweenFirstTwo, afterFirstMarker, h, h2]
    simp only [parse_ranking_from_text, h, Option.isSome_some, if_true,
      hget, Option.getD_some, hlen, if_pos]

/-- C3 (amended): when the marker is present, the numbered-item tier and
the bare-occurrence tier both operate on the segment between the first and
second marker occurrences — not on all text after the marker — and when
the marker is absent all bare occurrences of the whole text are returned,
duplicates preserved; the claim's two concrete examples evaluate as
stated. -/
theorem parse_tiers_amended :
    (∀ t : String,
      parse_ranking_from_text t =
        if (findSub FINAL_MARKER t.data).isSome then
          tierAB (betweenFirstTwo t.data)
        else findallBare t.data)
    ∧ parse_ranking_from_text "...FINAL RANKING:\n1. Response B\n2. Response A\n" =
        ["Response B", "Response A"]
    ∧ parse_ranking_from_text "Response A ... Response C ... Response A" =
        ["Response A", "Response C", "Response A"] :=
  ⟨parse_eq_tier, by decide, by decide⟩

/-- Counterexample for C3 as stated: on a text where the marker occurs
twice in a row, the code's tiers see only the empty segment between the two
occurrences and return nothing, while tiers running on all text after the
first marker (the claim's reading, `parseRankingClaimed`) would return a
label. -/
theorem parse_tiers_counterexample :
    parse_ranking_from_text "FINAL RANKING:FINAL RANKING:\n1. Response A\n" = []
    ∧ parseRankingClaimed "FINAL RANKING:FINAL RANKING:\n1. Response A\n" =
        ["Response A"]
    ∧ ([] : List String) ≠ ["Response A"] :=
  ⟨by decide, by decide, by decide⟩

/-- C9: when the marker occurs at least twice, the parser's tiers consider
exactly the segment strictly between the first and second occurrences
(split on the marker, second part), not all text following the first
occurrence. -/
theorem parse_second_segment (t : String) (i j : Nat)
    (h1 : findSub FINAL_MARKER t.data = some i)
    (h2 : findSub FINAL_MARKER (t.data.drop (i + FINAL_MARKER.length)) = some j) :
    parse_ranking_from_text t =
      tierAB ((t.data.drop (i + FINAL_MARKER.length)).take j) := by
  rw [parse_eq_tier t, h1]
  simp [betweenFirstTwo, afterFirstMarker, h1, h2]

/-- Witness for C9: a text with two marker occurrences; the parser runs on
the three characters between them. -/
theorem parse_second_segment_witness :
    findSub FINAL_MARKER ("FINAL RANKING: x FINAL RANKING:\n1. Response B\n").data = some 0
    ∧ findSub FINAL_MARKER
        (("FINAL RANKING: x FINAL RANKING:\n1. Response B\n").data.drop
          (0 + FINAL_MARKER.length)) = some 3
    ∧ parse_ranking_from_text "FINAL RANKING: x FINAL RANKING:\n1. Response B\n" =
        tierAB ((("FINAL RANKING: x FINAL RANKING:\n1. Response B\n").data.drop
          (0 + FINAL_MARKER.length)).take 3) :=
  ⟨by decide, by decide,
    parse_second_segment "FINAL RANKING: x FINAL RANKING:\n1. Response B\n" 0 3
      (by decide) (by decide)⟩

/-- Witness for C6: a chairman outside the pool with every dispatch
failing; all seven backups are tried, giving nine attempts. -/
theorem stage3_all_fail_terminal_witness :
    (stage3_synthesize_final envS3Fail "c0").ok = false
    ∧ (stage3_synthesize_final envS3Fail "c0").attempts.length = 9
    ∧ (stage3_synthesize_final envS3Fail "c0").error = some "boom"
    ∧ (stage3_synthesize_final envS3Fail "c0").errorType = some "timeout" := by
  have h := stage3_all_fail_terminal envS3Fail "c0" fun j => rfl
  exact ⟨h.1, by rw [h.2.2.2.1]; decide, by decide, by decide⟩

/-! ### C1 / C2 — Stage-1 retry loop -/

/-- The initial partition fold, characterised: successes and failures are
appended in fan-out order, failures with their captured details. -/
theorem foldl_initStep_eq :
    ∀ (ps : List (String × Option Resp)) (st : S1State),
      ps.foldl initStep st =
        ⟨st.results ++ succOf ps,
         st.succeeded ++ (succOf ps).map Prod.fst,
         st.failedModels ++ (failOf ps).map Prod.fst,
         st.failedDetails ++ (failOf ps).map fun p => (p.1, failDetailOf p.2)⟩ := by
  intro ps
  induction ps with
  | nil => intro st; simp [succOf, failOf]
  | cons p rest ih =>
    intro st
    rw [List.foldl_cons, ih]
    cases hc : contentOf p.2 with
    | some c =>
      have hsucc : succOf (p :: rest) = (p.1, c) :: succOf rest := by
        simp [succOf, hc]
      have hfail : failOf (p :: rest) = failOf rest := by
        simp [failOf, hc]
      have hstep : initStep st p =
          ⟨st.results ++ [(p.1, c)], st.succeeded ++ [p.1],
           st.failedModels, st.failedDetails⟩ := by
        simp [initStep, hc]
      rw [hsucc, hfail, hstep]
      simp
    | none =>
      have hsucc : succOf (p :: rest) = succOf rest := by simp [succOf, hc]
      have hfail : failOf (p :: rest) = p :: failOf rest := by
        simp [failOf, hc]
      have hstep : initStep st p =
          ⟨st.results, st.succeeded, st.failedModels ++ [p.1],
           st.failedDetails ++ [(p.1, (failDetailOf p.2).1, (failDetailOf p.2).2)]⟩ := by
        simp [initStep, hc]
      rw [hsucc, hfail, hstep]
      simp

/-- The models of a fan-out's success pairs are the targets whose oracle
response carries content, in order. -/
theorem succOf_fanout_fst (e : String → Option Resp) :
    ∀ ts : List String, (succOf (fanout e ts)).map Prod.fst =
      ts.filter fun m => (contentOf (e m)).isSome := by
  intro ts
  induction ts with
  | nil => rfl
  | cons m ts ih =>
    have hf : fanout e (m :: ts) = (m, e m) :: fanout e ts := rfl
    rw [hf]
    cases hc : contentOf (e m) with
    | some c =>
      have hcons : succOf ((m, e m) :: fanout e ts) =
          (m, c) :: succOf (fanout e ts) := by simp [succOf, hc]
      rw [hcons, List.map_cons, ih, List.filter_cons]
      simp [hc]
    | none =>
      have hcons : succOf ((m, e m) :: fanout e ts) = succOf (fanout e ts) := by
        simp [succOf, hc]
      rw [hcons, ih, List.filter_cons]
      simp [hc]

/-- The models of a fan-out's failed pairs are the targets whose oracle
response carries no content, in order. -/
theorem failOf_fanout_fst (e : String → Option Resp) :
    ∀ ts : List String, (failOf (fanout e ts)).map Prod.fst =
      ts.filter fun m => !(contentOf (e m)).isSome := by
  intro ts
  induction ts with
  | nil => rfl
  | cons m ts ih =>
    have hf : fanout e (m :: ts) = (m, e m) :: fanout e ts := rfl
    rw [hf]
    cases hc : contentOf (e m) with
    | some c =>
      have hcons : failOf ((m, e m) :: fanout e ts) = failOf (fanout e ts) := by
        simp [failOf, hc]
      rw [hcons, ih, List.filter_cons]
      simp [hc]
    | none =>
      have hcons : failOf ((m, e m) :: fanout e ts) =
          (m, e m) :: failOf (fanout e ts) := by simp [failOf, hc]
      rw [hcons, List.map_cons, ih, List.filter_cons]
      simp [hc]

/-- The merge fold, characterised: when the dispatched targets are distinct
and none has succeeded yet, every target that answers with content is
appended to the results and the succeeded set, and nothing else changes. -/
theorem foldl_mergeStep_eq (e : String → Option Resp) :
    ∀ (ts : List String) (st : S1State), ts.Nodup →
      (∀ m ∈ ts, m ∉ st.succeeded) →
      (fanout e ts).foldl mergeStep st =
        ⟨st.results ++ succOf (fanout e ts),
         st.succeeded ++ (succOf (fanout e ts)).map Prod.fst,
         st.failedModels, st.failedDetails⟩ := by
  intro ts
  induction ts with
  | nil => intro st _ _; simp [fanout, succOf]
  | cons m ts ih =>
    intro st hnd hdis
    have hf : fanout e (m :: ts) = (m, e m) :: fanout e ts := rfl
    rw [hf, List.foldl_cons]
    have hm : m ∉ st.succeeded := hdis m (by simp)
    obtain ⟨hmts, hnd2⟩ := List.nodup_cons.mp hnd
    cases hc : contentOf (e m) with
    | some c =>
      have hstep : mergeStep st (m, e m) =
          ⟨st.results ++ [(m, c)], st.succeeded ++ [m],
           st.failedModels, st.failedDetails⟩ := by
        simp [mergeStep, hc, hm]
      have hdis2 : ∀ x ∈ ts,
          x ∉ (⟨st.results ++ [(m, c)], st.succeeded ++ [m],
            st.failedModels, st.failedDetails⟩ : S1State).succeeded := by
        intro x hx
        simp only [List.mem_append, List.mem_singleton, not_or]
        exact ⟨hdis x (by simp [hx]), fun hxm => hmts (hxm ▸ hx)⟩
      have hcons : succOf ((m, e m) :: fanout e ts) =
          (m, c) :: succOf (fanout e ts) := by simp [succOf, hc]
      rw [hstep, ih _ hnd2 hdis2, hcons]
      simp
    | none =>
      have hstep : mergeStep st (m, e m) = st := by simp [mergeStep, hc]
      have hcons : succOf ((m, e m) :: fanout e ts) = succOf (fanout e ts) := by
        simp [succOf, hc]
      rw [hstep, hcons]
      exact ih st hnd2 fun x hx => hdis x (by simp [hx])

/-- The state after the initial fan-out, in closed form. -/
theorem stage1Init_eq (env : Nat → String → Option Resp)
    (active : List String) :
    stage1Init env active =
      ⟨succOf (fanout (env 0) active),
       (succOf (fanout (env 0) active)).map Prod.fst,
       (failOf (fanout (env 0) active)).map Prod.fst,
       (failOf (fanout (env 0) active)).map fun p => (p.1, failDetailOf p.2)⟩ := by
  rw [stage1Init, foldl_initStep_eq]
  simp

/-- The initially failed models are the active models without content, in
order. -/
theorem stage1Init_failed_eq (env : Nat → String → Option Resp)
    (active : List String) :
    (stage1Init env active).failedModels =
      active.filter fun m => !(contentOf (env 0 m)).isSome := by
  rw [stage1Init_eq]
  exact failOf_fanout_fst (env 0) active

/-- The initially succeeded models are the active models with content, in
order. -/
theorem stage1Init_succ_eq (env : Nat → String → Option Resp)
    (active : List String) :
    (stage1Init env active).succeeded =
      active.filter fun m => (contentOf (env 0 m)).isSome := by
  rw [stage1Init_eq]
  exact succOf_fanout_fst (env 0) active

/-- On a duplicate-free active list the initial state satisfies the loop
invariant relative to itself. -/
theorem stage1Init_inv (env : Nat → String → Option Resp)
    (active : List String) (hnd : active.Nodup) :
    S1Inv (stage1Init env active) (stage1Init env active) := by
  refine ⟨?_, ?_, rfl, ?_⟩
  · rw [stage1Init_eq]
  · rw [stage1Init_succ_eq]
    exact hnd.filter _
  · rw [List.filter_eq_self.mpr]
    intro m hmf
    rw [stage1Init_failed_eq] at hmf
    rw [stage1Init_succ_eq]
    obtain ⟨_, hmc⟩ := List.mem_filter.mp hmf
    simp only [decide_eq_true_eq]
    intro hms
    obtain ⟨_, hmc2⟩ := List.mem_filter.mp hms
    rw [hmc2] at hmc
    simp at hmc

/-- The initially failed models are duplicate-free when the active list
is. -/
theorem stage1Init_failed_nodup (env : Nat → String → Option Resp)
    (active : List String) (hnd : active.Nodup) :
    (stage1Init env active).failedModels.Nodup := by
  rw [stage1Init_failed_eq]
  exact hnd.filter _

/-- Every initially failed model comes from the active list. -/
theorem stage1Init_failed_sub (env : Nat → String → Option Resp)
    (active : List String) :
    ∀ m ∈ (stage1Init env active).failedModels, m ∈ active := by
  intro m hm
  rw [stage1Init_failed_eq] at hm
  exact (List.mem_filter.mp hm).1

/-- No initially failed model is initially succeeded: the fan-out gives one
response per model. -/
theorem stage1Init_failed_disjoint (env : Nat → String → Option Resp)
    (active : List String) :
    ∀ m ∈ (stage1Init env active).failedModels,
      m ∉ (stage1Init env active).succeeded := by
  intro m hmf hms
  rw [stage1Init_failed_eq] at hmf
  rw [stage1Init_succ_eq] at hms
  have h1 := (List.mem_filter.mp hmf).2
  have h2 := (List.mem_filter.mp hms).2
  rw [h2] at h1
  simp at h1

/-- The round-1 retry block preserves the loop invariant. -/
theorem retryBlock_inv (e : String → Option Resp) (st0 st : S1State)
    (hnd0 : st0.failedModels.Nodup) (hinv : S1Inv st0 st) :
    S1Inv st0 (retryBlock e st).1 := by
  obtain ⟨h1, h2, h3, h4⟩ := hinv
  by_cases hf : st.failedModels = []
  · simp only [retryBlock, if_pos hf]
    exact ⟨h1, h2, h3, h4⟩
  · have hfnd : st.failedModels.Nodup := by
      rw [h4]; exact hnd0.filter _
    have htgnd :
        (st.failedModels.take (MIN_RESPONSES - st.results.length + 1)).Nodup :=
      List.Nodup.sublist (List.take_sublist _ _) hfnd
    have htgdis : ∀ m ∈ st.failedModels.take
        (MIN_RESPONSES - st.results.length + 1), m ∉ st.succeeded := by
      intro m hm
      have hmf : m ∈ st.failedModels := (List.take_sublist _ _).subset hm
      rw [h4] at hmf
      simpa using (List.mem_filter.mp hmf).2
    have hmerge := foldl_mergeStep_eq e _ st htgnd htgdis
    simp only [retryBlock, if_neg hf, hmerge]
    set tg := st.failedModels.take (MIN_RESPONSES - st.results.length + 1)
      with htg
    set newfst := (succOf (fanout e tg)).map Prod.fst with hnf
    refine ⟨by rw [h1]; simp, ?_, h3, ?_⟩
    · apply List.nodup_append.mpr
      refine ⟨h2, ?_, ?_⟩
      · rw [hnf, succOf_fanout_fst]
        exact htgnd.filter _
      · intro a ha hanew
        rw [hnf, succOf_fanout_fst] at hanew
        exact htgdis a ((List.mem_filter.mp hanew).1) ha
    · rw [h4, List.filter_filter]
      apply List.filter_congr
      intro m _
      by_cases hm1 : m ∈ st.succeeded ++ newfst
      · have hmor := List.mem_append.mp hm1
        by_cases hm2 : m ∈ st.succeeded
        · simp [hm1, hm2]
        · simp [hm1, hm2]
      · have hm2 : m ∉ st.succeeded := fun h => hm1 (List.mem_append.mpr (Or.inl h))
        simp [hm1, hm2]

/-- The backup block preserves the loop invariant: the models it can add to
the succeeded set are never active-list (hence never initially failed)
models. -/
theorem backupBlock_inv (e : String → Option Resp) (active : List String)
    (st0 st : S1State) (hsub0 : ∀ m ∈ st0.failedModels, m ∈ active)
    (hinv : S1Inv st0 st) :
    ∀ (st2 : S1State) (ts : List String),
      backupBlock e active st = some (st2, ts) → S1Inv st0 st2 := by
  intro st2 ts hbb
  obtain ⟨h1, h2, h3, h4⟩ := hinv
  by_cases hc : BACKUP_MODELS.filter
      (fun m => decide (m ∉ st.succeeded ++ active)) = []
  · simp only [backupBlock, if_pos hc] at hbb
    exact Option.noConfusion hbb
  · simp only [backupBlock, if_neg hc] at hbb
    set tg := (BACKUP_MODELS.filter
        fun m => decide (m ∉ st.succeeded ++ active)).take
      (MIN_RESPONSES - st.results.length + 2) with htg
    have htgnd : tg.Nodup :=
      List.Nodup.sublist (List.take_sublist _ _)
        ((by decide : BACKUP_MODELS.Nodup).filter _)
    have htgsub : ∀ m ∈ tg, m ∉ st.succeeded ++ active := by
      intro m hm
      have := (List.mem_filter.mp ((List.take_sublist _ _).subset hm)).2
      simpa using this
    have htgdis : ∀ m ∈ tg, m ∉ st.succeeded := by
      intro m hm hmem
      exact htgsub m hm (List.mem_append.mpr (Or.inl hmem))
    have hmerge := foldl_mergeStep_eq e tg st htgnd htgdis
    rw [hmerge] at hbb
    obtain ⟨hst2, -⟩ := Prod.mk.injEq .. ▸ (Option.some.injEq _ _).mp hbb
    set newfst := (succOf (fanout e tg)).map Prod.fst with hnf
    rw [← hst2]
    refine ⟨by rw [h1]; simp, ?_, h3, ?_⟩
    · apply List.nodup_append.mpr
      refine ⟨h2, ?_, ?_⟩
      · rw [hnf, succOf_fanout_fst]
        exact htgnd.filter _
      · intro a ha hanew
        rw [hnf, succOf_fanout_fst] at hanew
        exact htgdis a ((List.mem_filter.mp hanew).1) ha
    · show st.failedModels = _
      rw [h4]
      apply List.filter_congr
      intro m hmf
      have hma : m ∈ active := hsub0 m hmf
      have hmnew : m ∉ newfst := by
        rw [hnf, succOf_fanout_fst]
        intro hmem
        exact htgsub m ((List.mem_filter.mp hmem).1)
          (List.mem_append.mpr (Or.inr hma))
      by_cases hm2 : m ∈ st.succeeded
      · have : m ∈ st.succeeded ++ newfst := List.mem_append.mpr (Or.inl hm2)
        simp [hm2, this]
      · have : m ∉ st.succeeded ++ newfst := by
          intro hmem
          rcases List.mem_append.mp hmem with h | h
          · exact hm2 h
          · exact hmnew h
        simp [hm2, this]

/-- The whole retry loop preserves the invariant. -/
theorem stage1Loop_inv (env : Nat → String → Option Resp)
    (active : List String) (st0 : S1State)
    (hnd0 : st0.failedModels.Nodup)
    (hsub0 : ∀ m ∈ st0.failedModels, m ∈ active) :
    ∀ (fuel r : Nat) (st : S1State) (log : List (List String)),
      S1Inv st0 st → S1Inv st0 (stage1Loop env active fuel r st log).1 := by
  intro fuel
  induction fuel with
  | zero => intro r st log hinv; exact hinv
  | succ fuel ih =>
    intro r st log hinv
    by_cases hcond : st.results.length < MIN_RESPONSES ∧ r < MAX_RETRY_ROUNDS
    · rw [stage1Loop, if_pos hcond]
      by_cases hr : r + 1 = 1
      · simp only [if_pos hr]
        have hinv1 : S1Inv st0 (retryBlock (env 1) st).1 :=
          retryBlock_inv (env 1) st0 st hnd0 hinv
        by_cases hlen :
            (retryBlock (env 1) st).1.results.length < MIN_RESPONSES
        · simp only [if_pos hlen]
          cases hbb : backupBlock (env (r + 1 + 1)) active
              (retryBlock (env 1) st).1 with
          | none => exact hinv1
          | some pr =>
            obtain ⟨stb, tsb⟩ := pr
            exact ih _ _ _
              (backupBlock_inv _ active st0 _ hsub0 hinv1 stb tsb hbb)
        · simp only [if_neg hlen]
          exact ih _ _ _ hinv1
      · simp only [if_neg hr]
        by_cases hlen : st.results.length < MIN_RESPONSES
        · simp only [if_pos hlen]
          cases hbb : backupBlock (env (r + 1 + 1)) active st with
          | none => exact hinv
          | some pr =>
            obtain ⟨stb, tsb⟩ := pr
            exact ih _ _ _
              (backupBlock_inv _ active st0 _ hsub0 hinv stb tsb hbb)
        · simp only [if_neg hlen]
          exact ih _ _ _ hinv
    · rw [stage1Loop, if_neg hcond]
      exact hinv

/-- The loop only appends to the dispatch log. -/
theorem stage1Loop_log_mono (env : Nat → String → Option Resp)
    (active : List String) :
    ∀ (fuel r : Nat) (st : S1State) (log : List (List String)),
      ∃ ext, (stage1Loop env active fuel r st log).2 = log ++ ext := by
  intro fuel
  induction fuel with
  | zero => intro r st log; exact ⟨[], by simp [stage1Loop]⟩
  | succ fuel ih =>
    intro r st log
    by_cases hcond : st.results.length < MIN_RESPONSES ∧ r < MAX_RETRY_ROUNDS
    · rw [stage1Loop, if_pos hcond]
      by_cases hr : r + 1 = 1
      · simp only [if_pos hr]
        by_cases hlen :
            (retryBlock (env 1) st).1.results.length < MIN_RESPONSES
        · simp only [if_pos hlen]
          cases hbb : backupBlock (env (r + 1 + 1)) active
              (retryBlock (env 1) st).1 with
          | none => exact ⟨(retryBlock (env 1) st).2, rfl⟩
          | some pr =>
            obtain ⟨stb, tsb⟩ := pr
            obtain ⟨ext, hext⟩ := ih (r + 1) stb
              ((log ++ (retryBlock (env 1) st).2) ++ [tsb])
            exact ⟨(retryBlock (env 1) st).2 ++ [tsb] ++ ext,
              by rw [hext]; simp⟩
        · simp only [if_neg hlen]
          obtain ⟨ext, hext⟩ := ih (r + 1) (retryBlock (env 1) st).1
            (log ++ (retryBlock (env 1) st).2)
          exact ⟨(retryBlock (env 1) st).2 ++ ext, by rw [hext]; simp⟩
      · simp only [if_neg hr]
        by_cases hlen : st.results.length < MIN_RESPONSES
        · simp only [if_pos hlen]
          cases hbb : backupBlock (env (r + 1 + 1)) active st with
          | none => exact ⟨[], by simp⟩
          | some pr =>
            obtain ⟨stb, tsb⟩ := pr
            obtain ⟨ext, hext⟩ := ih (r + 1) stb (log ++ [tsb])
            exact ⟨[tsb] ++ ext, by rw [hext]; simp⟩
        · simp only [if_neg hlen]
          exact ih (r + 1) st log
    · rw [stage1Loop, if_neg hcond]
      exact ⟨[], by simp⟩

/-- The second dispatch log entry of a below-minimum run with failures is
the round-1 retry target list. -/
theorem stage1Loop_first_log (env : Nat → String → Option Resp)
    (active : List String) (fuel : Nat) (st : S1State)
    (log : List (List String))
    (hlow : st.results.length < MIN_RESPONSES)
    (hfail : st.failedModels ≠ []) :
    ∃ ext, (stage1Loop env active (fuel + 1) 0 st log).2 =
      (log ++ [st.failedModels.take
        (MIN_RESPONSES - st.results.length + 1)]) ++ ext := by
  have hcond : st.results.length < MIN_RESPONSES ∧ 0 < MAX_RETRY_ROUNDS :=
    ⟨hlow, by decide⟩
  have hrb2 : (retryBlock (env 1) st).2 =
      [st.failedModels.take (MIN_RESPONSES - st.results.length + 1)] := by
    simp only [retryBlock, if_neg hfail]
  rw [stage1Loop, if_pos hcond]
  simp only [if_pos (show (0 : Nat) + 1 = 1 from rfl), if_true]
  by_cases hlen : (retryBlock (env 1) st).1.results.length < MIN_RESPONSES
  · simp only [if_pos hlen]
    cases hbb : backupBlock (env (0 + 1 + 1)) active (retryBlock (env 1) st).1 with
    | none => exact ⟨[], by rw [hrb2]; simp⟩
    | some pr =>
      obtain ⟨stb, tsb⟩ := pr
      obtain ⟨ext, hext⟩ := stage1Loop_log_mono env active fuel (0 + 1) stb
        ((log ++ (retryBlock (env 1) st).2) ++ [tsb])
      refine ⟨[tsb] ++ ext, ?_⟩
      rw [hext, hrb2]
      simp
  · simp only [if_neg hlen]
    obtain ⟨ext, hext⟩ := stage1Loop_log_mono env active fuel (0 + 1)
      (retryBlock (env 1) st).1 (log ++ (retryBlock (env 1) st).2)
    refine ⟨ext, ?_⟩
    rw [hext, hrb2]

/-- C1 (amended): below the minimum after the initial fan-out and with a
nonempty failed list, retry round 1 dispatches exactly the first
`need + 1` currently-failed models (`need` = shortfall to the minimum) —
a proper subset of the failed set whenever more than `need + 1` models
failed — merges every answering dispatched model into the results, and
keeps exactly the failed models that did not just succeed. -/
theorem stage1_retry_round_one (env : Nat → String → Option Resp)
    (active : List String) (hnd : active.Nodup)
    (hlow : (stage1Init env active).results.length < MIN_RESPONSES)
    (hfail : (stage1Init env active).failedModels ≠ []) :
    (stage1Run env active).2[1]? =
        some ((stage1Init env active).failedModels.take
          (MIN_RESPONSES - (stage1Init env active).results.length + 1))
    ∧ (retryBlock (env 1) (stage1Init env active)).1.results =
        (stage1Init env active).results ++
          succOf (fanout (env 1)
            ((stage1Init env active).failedModels.take
              (MIN_RESPONSES - (stage1Init env active).results.length + 1)))
    ∧ (retryBlock (env 1) (stage1Init env active)).1.failedModels =
        (stage1Init env active).failedModels.filter fun m =>
          !(decide (m ∈ (stage1Init env active).failedModels.take
              (MIN_RESPONSES - (stage1Init env active).results.length + 1))
            && (contentOf (env 1 m)).isSome) := by
  have hfnd : (stage1Init env active).failedModels.Nodup :=
    stage1Init_failed_nodup env active hnd
  have hdis0 := stage1Init_failed_disjoint env active
  have htgnd : ((stage1Init env active).failedModels.take
      (MIN_RESPONSES - (stage1Init env active).results.length + 1)).Nodup :=
    List.Nodup.sublist (List.take_sublist _ _) hfnd
  have htgdis : ∀ m ∈ (stage1Init env active).failedModels.take
      (MIN_RESPONSES - (stage1Init env active).results.length + 1),
      m ∉ (stage1Init env active).succeeded :=
    fun m hm => hdis0 m ((List.take_sublist _ _).subset hm)
  have hmerge := foldl_mergeStep_eq (env 1) _ _ htgnd htgdis
  have hrb1 : (retryBlock (env 1) (stage1Init env active)).1 =
      ⟨(stage1Init env active).results ++
          succOf (fanout (env 1) ((stage1Init env active).failedModels.take
            (MIN_RESPONSES - (stage1Init env active).results.length + 1))),
        (stage1Init env active).succeeded ++
          (succOf (fanout (env 1) ((stage1Init env active).failedModels.take
            (MIN_RESPONSES - (stage1Init env active).results.length + 1)))).map
            Prod.fst,
        (stage1Init env active).failedModels.filter fun m =>
          decide (m ∉ (stage1Init env active).succeeded ++
            (succOf (fanout (env 1) ((stage1Init env active).failedModels.take
              (MIN_RESPONSES - (stage1Init env active).results.length + 1)))).map
              Prod.fst),
        (stage1Init env active).failedDetails⟩ := by
    simp only [retryBlock, if_neg hfail, hmerge]
  refine ⟨?_, ?_, ?_⟩
  · obtain ⟨ext, hext⟩ :=
      stage1Loop_first_log env active 1 (stage1Init env active) [active]
        hlow hfail
    have hrun : (stage1Run env active).2 =
        ([active] ++ [(stage1Init env active).failedModels.take
          (MIN_RESPONSES - (stage1Init env active).results.length + 1)]) ++
          ext := by
      rw [stage1Run]
      exact hext
    rw [hrun, List.getElem?_append_left (by simp)]
    rfl
  · rw [hrb1]
  · rw [hrb1]
    show (stage1Init env active).failedModels.filter _ = _
    apply List.filter_congr
    intro m hmf
    have hms : m ∉ (stage1Init env active).succeeded := hdis0 m hmf
    rw [succOf_fanout_fst]
    by_cases hmt : m ∈ (stage1Init env active).failedModels.take
        (MIN_RESPONSES - (stage1Init env active).results.length + 1)
    · by_cases hcs : (contentOf (env 1 m)).isSome
      · simp [hms, hmt, hcs]
      · simp [hms, hmt, hcs]
    · simp [hms, hmt]

/-- Witness for C1 (amended): one of two models fails initially and is the
sole round-1 retry target. -/
theorem stage1_retry_round_one_witness :
    (["m1", "m2"] : List String).Nodup
    ∧ (stage1Init envOnlyM1 ["m1", "m2"]).results.length < MIN_RESPONSES
    ∧ (stage1Init envOnlyM1 ["m1", "m2"]).failedModels ≠ []
    ∧ (stage1Run envOnlyM1 ["m1", "m2"]).2[1]? = some ["m2"] := by
  refine ⟨by decide, by decide, by decide, ?_⟩
  have h := (stage1_retry_round_one envOnlyM1 ["m1", "m2"] (by decide)
    (by decide) (by decide)).1
  rw [h]
  decide

/-- Counterexample for C1 as stated: with four models all failing the
initial fan-out, the shortfall is 2 and round 1 re-dispatches only the
first three failed models, not all four. -/
theorem stage1_retry_round_one_counterexample :
    (stage1Run envFail modelsFour).2[1]? = some ["m1", "m2", "m3"]
    ∧ (stage1Init envFail modelsFour).failedModels = ["m1", "m2", "m3", "m4"]
    ∧ (["m1", "m2", "m3"] : List String) ≠ ["m1", "m2", "m3", "m4"] :=
  ⟨by decide, by decide, by decide⟩

/-- C2 (amended): on a duplicate-free active list, the terminal Stage-1 set
is the success entries in collection order followed by one failed entry for
every model of the initial fan-out that never succeeded, carrying the error
captured during the initial fan-out (subsequent rounds capture none);
backup models that were contacted and failed receive no entry; each
model id appears at most once across the set. -/
theorem stage1_terminal_structure (env : Nat → String → Option Resp)
    (active : List String) (hnd : active.Nodup) :
    stage1_collect_responses env active =
        ((stage1Run env active).1.results.map fun p =>
          S1Entry.success p.1 p.2)
          ++ (((stage1Init env active).failedModels.filter fun m =>
                decide (m ∉ (stage1Run env active).1.succeeded)).map fun m =>
              S1Entry.failed m
                (lookupDetail (stage1Init env active).failedDetails m).1
                (lookupDetail (stage1Init env active).failedDetails m).2)
    ∧ ((stage1_collect_responses env active).map S1Entry.modelId).Nodup := by
  have hinv : S1Inv (stage1Init env active) (stage1Run env active).1 := by
    rw [stage1Run]
    exact stage1Loop_inv env active _ (stage1Init_failed_nodup env active hnd)
      (stage1Init_failed_sub env active) _ _ _ _ (stage1Init_inv env active hnd)
  obtain ⟨h1, h2, h3, h4⟩ := hinv
  constructor
  · rw [stage1_collect_responses, stage1FromState, h3, h4]
  · rw [stage1_collect_responses, stage1FromState, List.map_append,
      List.map_map, List.map_map]
    have hA : (S1Entry.modelId ∘ fun p : String × String =>
        S1Entry.success p.1 p.2) = Prod.fst := rfl
    have hB : (S1Entry.modelId ∘ fun m =>
        S1Entry.failed m
          (lookupDetail (stage1Run env active).1.failedDetails m).1
          (lookupDetail (stage1Run env active).1.failedDetails m).2) =
        id := rfl
    rw [hA, hB, List.map_id, ← h1, h4]
    apply List.nodup_append.mpr
    refine ⟨h2, (stage1Init_failed_nodup env active hnd).filter _, ?_⟩
    intro a ha hain
    have := (List.mem_filter.mp hain).2
    simp only [decide_eq_true_eq] at this
    exact this ha

/-- Witness for C2 (amended): a two-model run in which one model succeeds,
evaluated through the theorem. -/
theorem stage1_terminal_structure_witness :
    (["m1", "m2"] : List String).Nodup
    ∧ ((stage1_collect_responses envOnlyM1 ["m1", "m2"]).map
        S1Entry.modelId).Nodup :=
  ⟨by decide, (stage1_terminal_structure envOnlyM1 ["m1", "m2"] (by decide)).2⟩

/-- Counterexample for C2 as stated: with a one-model council whose every
dispatch fails, the backup model is contacted (it appears in the dispatch
log) and never succeeds, yet the terminal set contains no entry for it —
only the failed entry of the original model. -/
theorem stage1_terminal_structure_counterexample :
    "google/gemma-3-4b-it:free" ∈ (stage1Run envFail ["m1"]).2.flatten
    ∧ stage1_collect_responses envFail ["m1"] =
        [S1Entry.failed "m1" "boom" "timeout"]
    ∧ "google/gemma-3-4b-it:free" ∉
        (stage1_collect_responses envFail ["m1"]).map S1Entry.modelId :=
  ⟨by decide, by decide, by decide⟩

end Council
